import Mathlib

/-!
Verification development for the single-file YAML deserializer `zyaml.py`
(scanner + parse-tree builder).  The Python source is shallowly embedded:

* Python strings are modelled as `List Char` (`Chars`); slicing uses
  explicit index arithmetic mirroring `text[a:b]`.
* Python values flowing through the parser are modelled by the inductive
  `Value` (`None`, `bool`, `int`, `float`, `str`, `list`, `dict`, `set`).
  Floats are kept symbolically as the text passed to `float(...)` — no
  claim examines float arithmetic.  Python `dict` is modelled as an
  insertion-ordered association list, matching CPython semantics.
* Exceptions are modelled with `Except`: `Exc.stop` is `StopIteration`,
  `Exc.perr` is `zyaml.ParseError`, `Exc.pyerr` covers the remaining
  Python exceptions that the source lets escape (`UnicodeDecodeError`,
  `ValueError`, `AttributeError`, `TypeError`, `IndexError`).
* The three `while True` loops of the scanner are written with explicit
  fuel; the fuel passed at each call site is an upper bound on the number
  of iterations the Python loop can perform (each iteration consumes at
  least one pending span, one character of the current line, or one
  buffered line), so the out-of-fuel branch is unreachable.  The
  universally quantified theorems are conditioned on the scan completing,
  so they are unaffected by the fuel representation; the concrete
  examples evaluate inside the fuel bound.
* The regular expressions of the source (`RE_LINE_SPLIT`, `RE_BLOCK_SEP`,
  `RE_FLOW_SEP`, `RE_DOUBLE_QUOTE_END`, `RE_SINGLE_QUOTE_END`,
  `RE_TYPED`) are hand-compiled into dedicated matchers implementing
  Python `re` leftmost-match semantics for exactly those patterns.
-/

/-! ## Python runtime helpers -/

abbrev Chars := List Char

/-- Whitespace as matched by Python `\s` and stripped by `str.strip()`.
ASCII whitespace plus the common Unicode whitespace code points; the
claims only exercise ASCII input. -/
def pySpace (c : Char) : Bool :=
  c = ' ' || c = '\t' || c = '\n' || c = '\x0d' || c = '\x0b' || c = '\x0c' ||
  c = '\x1c' || c = '\x1d' || c = '\x1e' || c = '\x1f' || c = '\x85' || c = '\xa0' ||
  c = '\u1680' || ('\u2000' ≤ c && c ≤ '\u200a') || c = '\u2028' || c = '\u2029' ||
  c = '\u202f' || c = '\u205f' || c = '\u3000'

/-- Python `str.lstrip()` (whitespace form). -/
def pyLstrip (s : Chars) : Chars := s.dropWhile (fun c => pySpace c)

/-- Python `str.rstrip()` (whitespace form). -/
def pyRstrip (s : Chars) : Chars := (s.reverse.dropWhile (fun c => pySpace c)).reverse

/-- Python `str.strip()` (whitespace form). -/
def pyStrip (s : Chars) : Chars := pyRstrip (pyLstrip s)

/-- Python `str.lower()`, restricted to ASCII case mapping (the inputs the
claims exercise are ASCII; Unicode case folding is not needed). -/
def pyLower (s : Chars) : Chars := s.map Char.toLower

/-- Python slicing `s[a:b]` for `0 ≤ a ≤ b` within bounds. -/
def pySlice (s : Chars) (a b : Nat) : Chars := (s.drop a).take (b - a)

/-- Python slicing `s[a:]`. -/
def pyDropSlice (s : Chars) (a : Nat) : Chars := s.drop a

/-- Python `sep.join(parts)`. -/
def pyJoin (sep : Chars) (parts : List Chars) : Chars :=
  match parts with
  | [] => []
  | [p] => p
  | p :: rest => p ++ sep ++ pyJoin sep rest

/-- Python `s.startswith(p)`. -/
def pyStartswith (s p : Chars) : Bool := p.isPrefixOf s

/-- Python `s.partition(sep)` for a single-character separator: returns
the part before the first occurrence and the part after it (the middle
component is implied by whether the separator was found). -/
def pyPartition (s : Chars) (sep : Char) : Chars × Bool × Chars :=
  match s with
  | [] => ([], false, [])
  | c :: rest =>
    if c = sep then ([], true, rest)
    else
      let (before, found, after) := pyPartition rest sep
      (c :: before, found, after)

/-- Python `s.replace(old, new)` for the two-character pattern used by
single-quoted scalars (`text.replace("  ", ...)` shape): replaces every
non-overlapping left-to-right occurrence of `[a, a]` by `[a]`. -/
def pyReplacePairWithOne (a : Char) (s : Chars) : Chars :=
  match s with
  | [] => []
  | [c] => [c]
  | c :: d :: rest =>
    if c = a ∧ d = a then a :: pyReplacePairWithOne a rest
    else c :: pyReplacePairWithOne a (d :: rest)

/-- Python `s.replace(old, "", 1)` for a single-character `old`: removes
the first occurrence. -/
def pyRemoveFirst (a : Char) (s : Chars) : Chars :=
  match s with
  | [] => []
  | c :: rest => if c = a then rest else c :: pyRemoveFirst a rest

/-- Membership `a in s` for a single-character needle. -/
def pyContainsChar (a : Char) (s : Chars) : Bool := s.contains a

/-- Line-break characters recognised by Python `str.splitlines()`. -/
def pyLineBreak (c : Char) : Bool :=
  c = '\n' || c = '\x0d' || c = '\x0b' || c = '\x0c' ||
  c = '\x1c' || c = '\x1d' || c = '\x1e' || c = '\x85' ||
  c = '\u2028' || c = '\u2029'

/-- Python `str.splitlines()`: split at line breaks, treating `\r\n` as a
single break, with no trailing empty line for a trailing break. -/
def pySplitlinesAux : Chars → Chars → List Chars
  | [], acc => if acc = [] then [] else [acc.reverse]
  | '\x0d' :: '\n' :: rest2, acc => acc.reverse :: pySplitlinesAux rest2 []
  | c :: rest, acc =>
    if c = '\x0d' then acc.reverse :: pySplitlinesAux rest []
    else if pyLineBreak c then acc.reverse :: pySplitlinesAux rest []
    else pySplitlinesAux rest (c :: acc)

/-- Python `str.splitlines()` on the raw buffer. -/
def pySplitlines (s : Chars) : List Chars := pySplitlinesAux s []

/-! ## The Python value domain -/

/-- Python values produced by the deserializer.  `float` carries the text
given to `float(...)` symbolically; `dict` is an insertion-ordered
association list; `set` keeps insertion order of the keys it was built
from. -/
inductive Value where
  | none : Value
  | bool : Bool → Value
  | int : Int → Value
  | float : Chars → Value
  | str : Chars → Value
  | list : List Value → Value
  | dict : List (Value × Value) → Value
  | set : List Value → Value

/-- Python `==` on the values reachable in this program: `None` equals
only `None`, booleans compare numerically with integers (CPython
`True == 1`), strings compare structurally.  Symbolic floats compare by
their text (only `None` and strings ever occur as dict keys here). -/
def pyEqNum (a b : Value) : Option Int × Option Int :=
  (match a with
   | .bool x => some (if x then 1 else 0)
   | .int n => some n
   | _ => Option.none,
   match b with
   | .bool x => some (if x then 1 else 0)
   | .int n => some n
   | _ => Option.none)

mutual
def pyEq : Value → Value → Bool
  | .none, .none => true
  | .str a, .str b => a = b
  | .float a, .float b => a = b
  | .list a, .list b => pyEqList a b
  | .dict a, .dict b => pyEqPairs a b
  | .set a, .set b => pyEqList a b
  | a, b =>
    match pyEqNum a b with
    | (some x, some y) => x = y
    | _ => false

def pyEqList : List Value → List Value → Bool
  | [], [] => true
  | a :: as_, b :: bs => pyEq a b && pyEqList as_ bs
  | _, _ => false

def pyEqPairs : List (Value × Value) → List (Value × Value) → Bool
  | [], [] => true
  | (k1, v1) :: as_, (k2, v2) :: bs => pyEq k1 k2 && pyEq v1 v2 && pyEqPairs as_ bs
  | _, _ => false
end

/-- Assignment `d[k] = v` on an insertion-ordered Python dict: replace the
value of an existing equal key in place, else append. -/
def dictSet (d : List (Value × Value)) (k v : Value) : List (Value × Value) :=
  match d with
  | [] => [(k, v)]
  | (k0, v0) :: rest =>
    if pyEq k0 k then (k0, v) :: rest else (k0, v0) :: dictSet rest k v

/-- Assignment on the string-keyed anchors dict. -/
def strDictSet (d : List (Chars × Value)) (k : Chars) (v : Value) : List (Chars × Value) :=
  match d with
  | [] => [(k, v)]
  | (k0, v0) :: rest =>
    if k0 = k then (k0, v) :: rest else (k0, v0) :: strDictSet rest k v

/-- Lookup `d.get(k)` on the anchors dict. -/
def strDictGet (d : List (Chars × Value)) (k : Chars) : Option Value :=
  match d with
  | [] => Option.none
  | (k0, v0) :: rest => if k0 = k then some v0 else strDictGet rest k

/-- Escape one character the way Python `repr` does inside a string
literal quoted by `q`.  Printable characters are kept; `\x5cn`-style
escapes are produced for backslash, the quote, tab, newline, carriage
return; other C0 control characters and DEL become `\xHH`.  (Python also
escapes unprintable characters above U+007F; the strings reachable in the
claims are printable.) -/
def pyReprChar (q : Char) (c : Char) : Chars :=
  if c = '\\' then ['\\', '\\']
  else if c = q then ['\\', q]
  else if c = '\n' then ['\\', 'n']
  else if c = '\x0d' then ['\\', 'r']
  else if c = '\t' then ['\\', 't']
  else if c.toNat < 32 ∨ c.toNat = 127 then
    let hex := Nat.toDigits 16 c.toNat
    let hex := if hex.length = 1 then '0' :: hex else hex
    '\\' :: 'x' :: hex
  else [c]

/-- Python `repr` of a `str`: single quotes by default, double quotes when
the text contains a single quote but no double quote. -/
def pyReprStr (s : Chars) : Chars :=
  let sq : Char := '\x27'
  let dq : Char := '\x22'
  let q := if pyContainsChar sq s ∧ ¬ pyContainsChar dq s then dq else sq
  q :: (s.flatMap (pyReprChar q)) ++ [q]

mutual
/-- Python `repr(value)`. -/
def pyRepr : Value → Chars
  | .none => "None".toList
  | .bool true => "True".toList
  | .bool false => "False".toList
  | .int n => (toString n).toList
  | .float s => s
  | .str s => pyReprStr s
  | .list xs => '[' :: pyReprSeq xs ++ [']']
  | .dict [] => ['\x7b', '\x7d']
  | .dict es => '\x7b' :: pyReprPairs es ++ ['\x7d']
  | .set [] => "set()".toList
  | .set xs => '\x7b' :: pyReprSeq xs ++ ['\x7d']

def pyReprSeq : List Value → Chars
  | [] => []
  | [x] => pyRepr x
  | x :: rest => pyRepr x ++ (',' :: ' ' :: pyReprSeq rest)

def pyReprPairs : List (Value × Value) → Chars
  | [] => []
  | [(k, v)] => pyRepr k ++ (':' :: ' ' :: pyRepr v)
  | (k, v) :: rest => pyRepr k ++ (':' :: ' ' :: pyRepr v) ++ (',' :: ' ' :: pyReprPairs rest)
end

/-- Python `str(value)`: identity on strings, `repr` otherwise (for the
types occurring here). -/
def pyStr : Value → Chars
  | .str s => s
  | v => pyRepr v

/-! ## Exceptions -/

/-- Exceptions raised by the embedded code.  `stop` is `StopIteration`;
`perr` is `zyaml.ParseError` (message, `line_number`, `indent`);
`indentErr` is the specific `ParseError` raised by
`RootNode.ensure_node` ("Line should be indented at least N chars"),
kept as a distinguished constructor so that theorems can name it;
`pyerr` covers the remaining Python exceptions the source lets escape. -/
inductive Exc where
  | stop : Exc
  | perr : String → Option Nat → Option Nat → Exc
  | indentErr : Nat → Exc
  | pyerr : String → Exc
deriving DecidableEq

/-! ## Plain-scalar typing (`RE_TYPED`, `default_marshal`) -/

/-- Digit run with the underscore rules of Python `int(str)`: underscores
must be surrounded by digits. -/
def pyIntDigitsGo : Chars → Nat → Bool → Option Nat
  | [], acc, prevDigit => if prevDigit then some acc else Option.none
  | c :: rest, acc, prevDigit =>
    if c.isDigit then pyIntDigitsGo rest (acc * 10 + (c.toNat - 48)) true
    else if c = '_' ∧ prevDigit then
      match rest with
      | d :: _ => if d.isDigit then pyIntDigitsGo rest acc false else Option.none
      | [] => Option.none
    else Option.none

/-- Python `int(str)` in base 10: strip whitespace, optional sign, ASCII
digits (with underscores between digits); `Option.none` models
`ValueError`. -/
def pyIntParse (s : Chars) : Option Int :=
  let t := pyStrip s
  match t with
  | [] => Option.none
  | c :: rest =>
    if c = '-' then (pyIntDigitsGo rest 0 false).map (fun n => -(n : Int))
    else if c = '+' then (pyIntDigitsGo rest 0 false).map (fun n => (n : Int))
    else (pyIntDigitsGo t 0 false).map (fun n => (n : Int))

/-- Matcher for the body `[0-9]*\.?[0-9]+` of `RE_TYPED`. -/
def reTypedBody (s : Chars) : Bool :=
  match s.splitOn '.' with
  | [whole] => whole ≠ [] && whole.all Char.isDigit
  | [whole, frac] => whole.all Char.isDigit && (frac ≠ [] && frac.all Char.isDigit)
  | _ => false

/-- Matcher for the exponent `[-+]?[0-9]+` of `RE_TYPED`. -/
def reTypedExp (s : Chars) : Bool :=
  let t := match s with
    | c :: rest => if c = '-' ∨ c = '+' then rest else s
    | [] => s
  t ≠ [] && t.all Char.isDigit

/-- Matcher for the `<number>` alternative of `RE_TYPED` (input already
lowercased, so `E` has become `e`). -/
def reTypedNumber (s : Chars) : Bool :=
  let t := match s with
    | c :: rest => if c = '-' ∨ c = '+' then rest else s
    | [] => s
  match t.splitOn 'e' with
  | [body] => reTypedBody body
  | [body, ex] => reTypedBody body && reTypedExp ex
  | _ => false

/-- Full match of
`RE_TYPED = ^(false|true|null|[-+]?[0-9]*\.?[0-9]+([eE][-+]?[0-9]+)?)$`
with `re.IGNORECASE` (matching the lowercased text is equivalent since
the word alternatives are lowercase). -/
def reTypedMatch (s : Chars) : Bool :=
  let low := pyLower s
  low = "false".toList || low = "true".toList || low = "null".toList || reTypedNumber low

/-- The `default_marshal` function of the source: coerce a stripped plain
string to null/bool/int/float via `RE_TYPED`, else keep it as a string.
Note that `"~"` does not match `RE_TYPED`, so the `text in NULL` branch
can only be reached by `"null"`.  The `float(text)` call cannot fail for
a `RE_TYPED` match, so the final `return text` fallback is dead. -/
def default_marshal (v : Value) : Value :=
  match v with
  | .str s =>
    let text := pyStrip s
    if text = [] then v
    else if ¬ reTypedMatch text then .str text
    else
      let text := pyLower text
      if text = "null".toList ∨ text = ['~'] then .none
      else if text = "false".toList then .bool false
      else if text = "true".toList then .bool true
      else
        match pyIntParse text with
        | some n => .int n
        | Option.none => .float text
  | _ => v

/-! ## Marshallers (tag registry) -/

/-- The marshaller classes of the source, i.e. the descendants of
`Marshaller` collected by `get_descendants`: `MapMarshaller`,
`SeqMarshaller`, `SetMarshaller`, `ScalarMarshaller`, `StrMarshaller`,
`IntMarshaller`, `NullMarshaller`, `BoolMarshaller`. -/
inductive Marshaller where
  | map : Marshaller
  | seq : Marshaller
  | set : Marshaller
  | scalar : Marshaller
  | str : Marshaller
  | int : Marshaller
  | null : Marshaller
  | bool : Marshaller
deriving DecidableEq

/-- The name registry built in `Scanner.__init__`: class names lowercased
with the `Marshaller` suffix removed. -/
def marshallerByName (name : Chars) : Option Marshaller :=
  if name = "map".toList then some .map
  else if name = "seq".toList then some .seq
  else if name = "set".toList then some .set
  else if name = "scalar".toList then some .scalar
  else if name = "str".toList then some .str
  else if name = "int".toList then some .int
  else if name = "null".toList then some .null
  else if name = "bool".toList then some .bool
  else Option.none

/-- `Scanner.get_marshaller`: strip one leading `!`, partition the rest at
the first `!`; only the empty prefix has a registered category (the
`marshallers` dict of the scanner maps only `""`), so `!!name` resolves
through `marshallerByName` and everything else to `None`. -/
def get_marshaller (text : Chars) : Option Marshaller :=
  let text := if pyStartswith text ['!'] then text.drop 1 else text
  let (pre, _found, name) := pyPartition text '!'
  if pre = [] then marshallerByName name else Option.none

/-- Python `int(value)` as called by `IntMarshaller._marshalled`.  Lists,
dicts and sets are rejected by `ScalarMarshaller.marshalled` before this
point, and the parser never produces floats, so those branches are
unreachable from `load`. -/
def pyIntOf (v : Value) : Except Exc Value :=
  match v with
  | .str s =>
    match pyIntParse s with
    | some n => .ok (.int n)
    | Option.none => .error (.pyerr "ValueError: invalid literal for int()")
  | .bool b => .ok (.int (if b then 1 else 0))
  | .int n => .ok (.int n)
  | .none => .error (.pyerr "TypeError: int() argument is None")
  | _ => .error (.pyerr "TypeError: int() argument")

/-- `_marshalled` of the `ScalarMarshaller` subclasses (dispatch after the
container check).  The container marshallers never reach this function. -/
def scalar_marshalled (m : Marshaller) (v : Value) : Except Exc Value :=
  match m with
  | .scalar => .ok v
  | .str => .ok (.str (pyStr v))
  | .int => pyIntOf v
  | .null => .ok .none
  | .bool =>
    let text := pyLower (pyStr v)
    if text = "false".toList ∨ text = ['n'] ∨ text = "no".toList ∨ text = "off".toList then
      .ok (.bool false)
    else if text = "true".toList ∨ text = ['y'] ∨ text = "yes".toList ∨ text = "on".toList then
      .ok (.bool true)
    else .error (.perr ("\x27" ++ String.mk (pyStr v) ++ "\x27 is not a boolean") Option.none Option.none)
  | _ => .ok v

/-- `dict.update(x)` over an association-list dict. -/
def dictUpdate (d : List (Value × Value)) (x : List (Value × Value)) : List (Value × Value) :=
  x.foldl (fun acc kv => dictSet acc kv.1 kv.2) d

/-- `MapMarshaller` merging of a list of dicts (`result.update(x)` in
order); the non-dict case is unreachable behind the `all` guard. -/
def mergeDicts (xs : List Value) : List (Value × Value) :=
  xs.foldl (fun acc x => match x with | .dict es => dictUpdate acc es | _ => acc) []

/-- `Marshaller.marshalled` dispatch: the container marshallers first, the
scalar marshallers behind the container rejection of
`ScalarMarshaller.marshalled`. -/
def marshaller_marshalled (m : Marshaller) (v : Value) : Except Exc Value :=
  match m with
  | .map =>
    match v with
    | .dict _ => .ok v
    | .list xs =>
      if xs.all (fun x => match x with | .dict _ => true | _ => false) then
        .ok (.dict (mergeDicts xs))
      else .error (.perr "not a map" Option.none Option.none)
    | _ => .error (.perr "not a map" Option.none Option.none)
  | .seq =>
    match v with
    | .list _ => .ok v
    | .dict es => .ok (.list (es.flatMap (fun kv => [kv.1, kv.2])))
    | _ => .error (.perr "not a list or map" Option.none Option.none)
  | .set =>
    match v with
    | .dict es => .ok (.set (es.map (fun kv => kv.1)))
    | _ => .error (.perr "not a map, !!set applies to maps" Option.none Option.none)
  | _ =>
    match v with
    | .list _ => .error (.perr "scalar needed, got list instead" Option.none Option.none)
    | .dict _ => .error (.perr "scalar needed, got map instead" Option.none Option.none)
    | _ => scalar_marshalled m v

/-! ## Tokens -/

/-- Token kinds with their payloads, one constructor per `Token` subclass
of the source (`CommentToken` is never constructed and is omitted;
`KeyToken` has no payload because `consume_colon` never sets a value). -/
inductive TokKind where
  | streamStart : TokKind
  | streamEnd : TokKind
  | docStart : TokKind
  | docEnd : TokKind
  | flowMapStart : TokKind
  | flowSeqStart : TokKind
  | flowEnd : TokKind
  | flowEntry : TokKind
  | blockEntry : TokKind
  | emptyLine : TokKind
  | key : TokKind
  | directive : String → String → TokKind
  | anchor : Chars → TokKind
  | alias : Chars → TokKind
  | tag : Chars → Option Marshaller → TokKind
  | scalar : Option Chars → Option Chars → TokKind
deriving DecidableEq

/-- A scanned token: kind plus the `line_number` and `indent` attributes. -/
structure Token where
  kind : TokKind
  line : Option Nat
  indent : Option Nat
deriving DecidableEq

/-! ## Scanner state and the hand-compiled regular expressions -/

/-- The mutable state of `Scanner`: the remaining enumerated lines of the
buffer (the `gen` iterator), the current line bookkeeping, the pending
span queue and the flow-ender stack (deque used as a stack: the Lean
list head is the Python deque right end). -/
structure Scanner where
  lines : List (Nat × Chars)
  line_number : Option Nat
  line_pos : Nat
  line_size : Nat
  line_text : Chars
  pending : List (Nat × Nat)
  flow_ender : List Char
deriving DecidableEq

/-- The `get_indent` helper of the source: count leading space characters. -/
def get_indent (t : Chars) : Nat := (t.takeWhile (fun c => c = ' ')).length

/-- First index of the two-character pattern `" #"`, as used by
`text.index(" #")` in `decommented`. -/
def indexOfSpaceHash : Chars → Option Nat
  | [] => Option.none
  | [_] => Option.none
  | c :: d :: rest =>
    if c = ' ' ∧ d = '#' then some 0
    else (indexOfSpaceHash (d :: rest)).map (fun i => i + 1)

/-- The `decommented` helper of the source. -/
def decommented (t : Chars) : Chars :=
  if t = [] then t
  else if pyStartswith t ['#'] then []
  else
    match indexOfSpaceHash t with
    | some i => pyRstrip (t.take i)
    | Option.none => t

/-- Matcher for
`RE_LINE_SPLIT = ^((\s*[%#]).*|(\s*-|---|\.\.\.)(\s.*)?)$`
applied with `.match`: returns the stripped leader
(`m.group(2) or m.group(3)` followed by `.strip()`), or `Option.none`
when the line does not match.  Group 1 always spans the whole line, so
`m.span(1) = (0, len)`. -/
def restOk (rest : Chars) : Bool :=
  match rest with
  | [] => true
  | c :: _ => pySpace c

def lineSplit (t : Chars) : Option String :=
  let afterWs := t.dropWhile (fun c => pySpace c)
  match afterWs with
  | '%' :: _ => some "%"
  | '#' :: _ => some "#"
  | _ =>
    let alt2a : Option String :=
      match afterWs with
      | '-' :: rest => if restOk rest then some "-" else Option.none
      | _ => Option.none
    match alt2a with
    | some l => some l
    | Option.none =>
      if pyStartswith t "---".toList ∧ restOk (t.drop 3) then some "---"
      else if pyStartswith t "...".toList ∧ restOk (t.drop 3) then some "..."
      else Option.none

/-- End of the maximal whitespace run starting at `p`. -/
def wsEnd (t : Chars) (p : Nat) : Nat :=
  p + ((t.drop p).takeWhile (fun c => pySpace c)).length

/-- End of the maximal non-whitespace run starting at `p` (`\S+` greedy). -/
def nonWsEnd (t : Chars) (p : Nat) : Nat :=
  p + ((t.drop p).takeWhile (fun c => ¬ pySpace c)).length

/-- A match of `RE_BLOCK_SEP` / `RE_FLOW_SEP`: `s1 = m.span(1)[0]`,
`(s2, e2) = m.span(2)`. -/
structure SepMatch where
  s1 : Nat
  s2 : Nat
  e2 : Nat
deriving DecidableEq

/-- Try group 2 of `RE_BLOCK_SEP`/`RE_FLOW_SEP` at position `q`:
`#.*`, `[!&*]\S+`, the bracket/quote class (with `,` only in flow and
`>`/`|` only in block), or `:(\s+|$)`.  Returns the match end.  The
alternatives start with pairwise distinct characters, so the regex
alternation order is immaterial. -/
def sepGroup2 (flow : Bool) (t : Chars) (q : Nat) : Option Nat :=
  match t.get? q with
  | Option.none => Option.none
  | some c =>
    if c = '#' then some t.length
    else if c = '!' ∨ c = '&' ∨ c = '*' then
      let j := nonWsEnd t (q + 1)
      if q + 1 < j then some j else Option.none
    else if c = '[' ∨ c = ']' ∨ c = '\x7b' ∨ c = '\x7d' ∨ c = '\x22' ∨ c = '\x27' then
      some (q + 1)
    else if flow ∧ c = ',' then some (q + 1)
    else if (¬ flow) ∧ (c = '>' ∨ c = '|') then some (q + 1)
    else if c = ':' then
      if q + 1 = t.length then some (q + 1)
      else
        match t.get? (q + 1) with
        | some d => if pySpace d then some (wsEnd t (q + 1)) else Option.none
        | Option.none => some (q + 1)
    else Option.none

/-- Leftmost-match search for `RE_BLOCK_SEP`/`RE_FLOW_SEP` starting at
match position `p`: a match starting at `p` swallows the whitespace run
of `(\s*)` and needs group 2 at its end (no group-2 alternative starts
with whitespace, so backtracking over `(\s*)` cannot help). -/
def sepSearchGo (flow : Bool) (t : Chars) : Nat → Nat → Option SepMatch
  | 0, _ => Option.none
  | fuel + 1, p =>
    let q := wsEnd t p
    match sepGroup2 flow t q with
    | some e => some ⟨p, q, e⟩
    | Option.none => sepSearchGo flow t fuel (p + 1)

/-- `regex.search(text, pos)` for `RE_BLOCK_SEP` (`flow = false`) or
`RE_FLOW_SEP` (`flow = true`). -/
def sepSearch (flow : Bool) (t : Chars) (pos : Nat) : Option SepMatch :=
  sepSearchGo flow t (t.length + 1 - pos) pos

/-- `RE_DOUBLE_QUOTE_END.search(text, start)`:
leftmost `r` with `text[r] ≠ \x5c` and `text[r+1] = \x22`; returns
`m.span(1)[1] = r + 2`. -/
def dqEndGo (t : Chars) : Nat → Nat → Option Nat
  | 0, _ => Option.none
  | fuel + 1, r =>
    match t.get? r, t.get? (r + 1) with
    | some c, some d =>
      if c ≠ '\\' ∧ d = '\x22' then some (r + 2) else dqEndGo t fuel (r + 1)
    | _, _ => Option.none

def dqEnd (t : Chars) (start : Nat) : Option Nat :=
  dqEndGo t (t.length + 1 - start) start

/-- `RE_SINGLE_QUOTE_END.search(text, start)` for
`([^\x27]\x27([^\x27]|$))`: returns `m.span(1)[1]`, which is `r + 2` when
the quote is at end of line and `r + 3` when a non-quote character
follows it. -/
def sqEndGo (t : Chars) : Nat → Nat → Option Nat
  | 0, _ => Option.none
  | fuel + 1, r =>
    match t.get? r, t.get? (r + 1) with
    | some c, some d =>
      if c ≠ '\x27' ∧ d = '\x27' then
        match t.get? (r + 2) with
        | Option.none => some (r + 2)
        | some e => if e ≠ '\x27' then some (r + 3) else sqEndGo t fuel (r + 1)
      else sqEndGo t fuel (r + 1)
    | _, _ => Option.none

def sqEnd (t : Chars) (start : Nat) : Option Nat :=
  sqEndGo t (t.length + 1 - start) start

/-! ## Double-quote escape decoding (`codecs.decode(text, "unicode_escape")`) -/

def hexVal (c : Char) : Option Nat :=
  if '0' ≤ c ∧ c ≤ '9' then some (c.toNat - 48)
  else if 'a' ≤ c ∧ c ≤ 'f' then some (c.toNat - 87)
  else if 'A' ≤ c ∧ c ≤ 'F' then some (c.toNat - 55)
  else Option.none

def hexChars : Chars → Option Nat
  | [] => some 0
  | c :: rest =>
    match hexVal c, hexChars rest with
    | some v, some acc => some (v * 16 ^ rest.length + acc)
    | _, _ => Option.none

def isOctal (c : Char) : Bool := '0' ≤ c ∧ c ≤ '7'

/-- A Unicode scalar value from a code point; surrogates and out-of-range
values are rejected (CPython would store lone surrogates, which a Lean
`Char` cannot hold; no claim exercises them). -/
def charFromCode (n : Nat) : Option Char :=
  if n < 0xd800 ∨ (0xe000 ≤ n ∧ n < 0x110000) then some (Char.ofNat n) else Option.none

/-- One step of `unicode_escape` decoding after a backslash; returns the
decoded characters and the rest of the input, or an error message. -/
def unicodeEscapeStep (c : Char) (rs : Chars) : Except Exc (Chars × Chars) :=
  if c = '\n' then .ok ([], rs)
  else if c = '\\' then .ok (['\\'], rs)
  else if c = '\x27' then .ok (['\x27'], rs)
  else if c = '\x22' then .ok (['\x22'], rs)
  else if c = 'a' then .ok (['\x07'], rs)
  else if c = 'b' then .ok (['\x08'], rs)
  else if c = 'f' then .ok (['\x0c'], rs)
  else if c = 'n' then .ok (['\n'], rs)
  else if c = 'r' then .ok (['\x0d'], rs)
  else if c = 't' then .ok (['\t'], rs)
  else if c = 'v' then .ok (['\x0b'], rs)
  else if isOctal c then
    let extra := (rs.take 2).takeWhile isOctal
    let n := (c :: extra).foldl (fun acc d => acc * 8 + (d.toNat - 48)) 0
    .ok ([Char.ofNat n], rs.drop extra.length)
  else if c = 'x' then
    match hexChars (rs.take 2) with
    | some n =>
      if rs.length < 2 then .error (.pyerr "UnicodeDecodeError: truncated \\xXX escape")
      else .ok ([Char.ofNat n], rs.drop 2)
    | Option.none => .error (.pyerr "UnicodeDecodeError: truncated \\xXX escape")
  else if c = 'u' then
    match (if rs.length < 4 then Option.none else hexChars (rs.take 4)) with
    | some n =>
      match charFromCode n with
      | some ch => .ok ([ch], rs.drop 4)
      | Option.none => .error (.pyerr "surrogate escape not modelled")
    | Option.none => .error (.pyerr "UnicodeDecodeError: truncated \\uXXXX escape")
  else if c = 'U' then
    match (if rs.length < 8 then Option.none else hexChars (rs.take 8)) with
    | some n =>
      match charFromCode n with
      | some ch => .ok ([ch], rs.drop 8)
      | Option.none => .error (.pyerr "UnicodeDecodeError: illegal Unicode character")
    | Option.none => .error (.pyerr "UnicodeDecodeError: truncated \\UXXXXXXXX escape")
  else if c = 'N' then .error (.pyerr "named Unicode escape not modelled")
  else .ok (['\\', c], rs)

/-- `codecs.decode(text, "unicode_escape")`, written with fuel (each step
consumes at least one character). -/
def unicodeEscapeGo : Nat → Chars → Except Exc Chars
  | 0, _ => .error (.pyerr "fuel")
  | _ + 1, [] => .ok []
  | f + 1, '\\' :: rest =>
    match rest with
    | [] => .error (.pyerr "ValueError: Trailing \\ in string")
    | c :: rs =>
      match unicodeEscapeStep c rs with
      | .error e => .error e
      | .ok (out, rs2) =>
        match unicodeEscapeGo f rs2 with
        | .error e => .error e
        | .ok tail => .ok (out ++ tail)
  | f + 1, c :: rest =>
    match unicodeEscapeGo f rest with
    | .error e => .error e
    | .ok tail => .ok (c :: tail)

def unicodeEscape (s : Chars) : Except Exc Chars := unicodeEscapeGo (s.length + 1) s

/-! ## Scanner: line intake and per-character consumers -/

/-- Construction of `DirectiveToken(line_number, 0, text)`. -/
def directiveToken (ln : Option Nat) (text : Chars) : Token :=
  let text := decommented text
  if pyStartswith text "%YAML".toList then
    ⟨.directive "%YAML" (String.mk (pyStrip (text.drop 5))), ln, some 0⟩
  else if pyStartswith text "%TAG".toList then
    ⟨.directive "%TAG" (String.mk (pyStrip (text.drop 4))), ln, some 0⟩
  else
    let (name, _found, rest) := pyPartition text ' '
    ⟨.directive (String.mk name) (String.mk (pyStrip rest)), ln, some 0⟩

/-- The line-intake bookkeeping at the top of the `next_line` loop body:
advance the generator, set `line_number`, `line_text` and (for both the
matched and unmatched `RE_LINE_SPLIT` cases) `line_pos = 0`,
`line_size = len(line_text)`. -/
def line_advanced (sc : Scanner) (n : Nat) (text : Chars) (rest : List (Nat × Chars)) : Scanner :=
  { sc with lines := rest, line_number := some n, line_text := text,
            line_pos := 0, line_size := text.length }

/-- One iteration of the `Scanner.next_line` loop on an already-advanced
scanner: classify the current line with `RE_LINE_SPLIT` and dispatch the
leader; `Option.none` means a skipped comment line (the loop continues). -/
def next_line_one (keep_comments : Bool) (sc : Scanner) :
    Option (Except Exc (Scanner × Option Token)) :=
  match lineSplit sc.line_text with
  | Option.none => some (.ok (sc, Option.none))
  | some leader =>
    if leader = "#" then
      if keep_comments then some (.ok (sc, Option.none)) else Option.none
    else if leader = "%" then
      some
        (if (match sc.line_text with | c :: _ => c == ' ' | [] => false) then
          .error (.perr "Directive must not be indented" Option.none Option.none)
        else
          .ok ({ sc with line_pos := sc.line_size },
            some (directiveToken sc.line_number sc.line_text)))
    else if leader = "-" then
      let ind := get_indent sc.line_text
      some (.ok ({ sc with line_pos := ind + 2 }, some ⟨.blockEntry, sc.line_number, some ind⟩))
    else if leader = "---" then
      some (.ok ({ sc with line_pos := 4 }, some ⟨.docStart, sc.line_number, some 0⟩))
    else
      some (.ok ({ sc with line_pos := 4 }, some ⟨.docEnd, sc.line_number, some 0⟩))

/-- `Scanner.next_line`: pull lines from the generator until one is not a
skipped comment.  `Exc.stop` models the escaping `StopIteration` of the
exhausted generator. -/
def next_line_go (keep_comments : Bool) :
    List (Nat × Chars) → Scanner → Except Exc (Scanner × Option Token)
  | [], _ => .error .stop
  | (n, text) :: rest, sc =>
    match next_line_one keep_comments (line_advanced sc n text rest) with
    | some r => r
    | Option.none => next_line_go keep_comments rest (line_advanced sc n text rest)

def next_line (keep_comments : Bool) (sc : Scanner) : Except Exc (Scanner × Option Token) :=
  next_line_go keep_comments sc.lines sc

/-- `Scanner.pop_flow_ender`: pop and verify the flow stack. -/
def pop_flow_ender (expected : Char) (sc : Scanner) : Except Exc Scanner :=
  match sc.flow_ender with
  | [] =>
    .error (.perr ("\x27" ++ String.mk [expected] ++ "\x27 without corresponding opener")
      Option.none Option.none)
  | popped :: rest =>
    if popped ≠ expected then
      .error (.perr ("Expecting \x27" ++ String.mk [expected] ++ "\x27, but found \x27" ++
        String.mk [popped] ++ "\x27") Option.none Option.none)
    else .ok { sc with flow_ender := rest }

/-- Result of `Scanner._get_literal_styled_token` minus the token: folded
flag, chomping indicator and explicit indent digit. -/
structure LitStyle where
  folded : Bool
  keep : Option Bool
  indent : Option Nat
deriving DecidableEq

/-- `Scanner._get_literal_styled_token` (the token itself is assembled by
the caller from the returned style data and the original style text). -/
def get_literal_styled (ln : Option Nat) (start : Nat) (original : Chars) :
    Except Exc LitStyle :=
  if 3 < original.length then
    .error (.perr ("Invalid literal style \x27" ++ String.mk original ++
      "\x27, should be less than 3 chars") ln (some start))
  else
    let hasDash := pyContainsChar '-' original
    let style1 := if hasDash then pyRemoveFirst '-' original else original
    if pyContainsChar '+' style1 ∧ hasDash then
      .error (.perr ("Ambiguous literal style \x27" ++ String.mk original ++ "\x27")
        ln (some start))
    else
      let hasPlus := pyContainsChar '+' style1
      let style2 := if hasPlus then pyRemoveFirst '+' style1 else style1
      let keep : Option Bool :=
        if hasPlus then some true else if hasDash then some false else Option.none
      let withIndent : Except Exc (Chars × Option Nat) :=
        if style2.length = 2 then
          let indentChar := style2.getD 1 ' '
          if ¬ indentChar.isDigit then
            .error (.perr ("Invalid literal style \x27" ++ String.mk original ++ "\x27")
              ln (some start))
          else
            let ind := indentChar.toNat - 48
            if ind < 1 then
              .error (.perr "Indent must be between 1 and 9" ln (some start))
            else .ok (style2.take 1, some ind)
        else .ok (style2, Option.none)
      match withIndent with
      | .error e => .error e
      | .ok (style3, ind) =>
        if style3 = ['>'] then .ok ⟨true, keep, ind⟩
        else if style3 = ['|'] then .ok ⟨false, keep, ind⟩
        else
          .error (.perr ("Internal error, invalid style \x27" ++ String.mk original ++ "\x27")
            ln (some start))

/-- One iteration of the line-collection loop of
`Scanner.consume_literal` on the freshly read line `text`: collect empty
lines, determine the block indent from the first non-empty line, finish
with the chomped value at the first dedented line, else append (or fold)
the dedented content. -/
inductive LitStep where
  | finish : Chars → LitStep
  | more : Option Nat → List Chars → LitStep

def literal_step (folded : Bool) (keep : Option Bool) (text : Chars)
    (indent : Option Nat) (lns : List Chars) : LitStep :=
  if text = [] then .more indent (lns ++ [[]])
  else
    let i := get_indent text
    let indentV :=
      match indent with
      | Option.none => if i ≠ 0 then i else 1
      | some v => v
    if i < indentV then
      let joined := pyJoin ['\n'] lns
      .finish
        (match keep with
        | Option.none => pyRstrip joined ++ ['\n']
        | some false => pyRstrip joined
        | some true => joined ++ ['\n'])
    else
      let v := text.drop indentV
      .more (some indentV)
        (if folded ∧ lns ≠ [] ∧ ¬ pyStartswith v [' '] ∧
            ¬ pyStartswith (lns.getLastD []) [' '] then
          (if lns.getLastD [] ≠ [] then lns.dropLast ++ [lns.getLastD [] ++ ' ' :: v]
           else lns.dropLast ++ [v])
        else lns ++ [v])

/-- The line-collection loop of `Scanner.consume_literal`.  `tokLn` and
`tokInd` are the attributes fixed when the `ScalarToken` was created.
`StopIteration` from `next_line` escapes this function uncaught — the
token collected so far is lost, exactly as in the source. -/
def consume_literal_go (folded : Bool) (keep : Option Bool) (tokLn : Option Nat)
    (tokInd : Option Nat) (style : Chars) :
    Nat → Scanner → Option Nat → List Chars → Except Exc (Scanner × Option Token)
  | 0, _, _, _ => .error (.pyerr "fuel")
  | f + 1, sc, indent, lns =>
    match next_line true sc with
    | .error e => .error e
    | .ok (sc, _ignored) =>
      match literal_step folded keep sc.line_text indent lns with
      | .finish value => .ok (sc, some ⟨.scalar (some value) (some style), tokLn, tokInd⟩)
      | .more indent2 lns2 => consume_literal_go folded keep tokLn tokInd style f sc indent2 lns2

/-- `Scanner.consume_literal`. -/
def consume_literal (sc : Scanner) (start : Nat) : Except Exc (Scanner × Option Token) :=
  match get_literal_styled sc.line_number start (decommented (sc.line_text.drop start)) with
  | .error e => .error e
  | .ok ls =>
    consume_literal_go ls.folded ls.keep sc.line_number ls.indent
      (decommented (sc.line_text.drop start)) (sc.lines.length + 1) sc ls.indent []

/-- `ScalarToken.set_raw_text`: unquote doubled apostrophes for
single-quoted scalars, apply `unicode_escape` for double-quoted ones. -/
def set_raw_text (style : Char) (text : Chars) : Except Exc Chars :=
  if style = '\x27' then .ok (pyReplacePairWithOne '\x27' text)
  else if style = '\x22' then unicodeEscape text
  else .ok text

def lineNumberStr : Option Nat → String
  | some n => toString n
  | Option.none => "None"

/-- The closing-quote branch of `Scanner._consume_multiline`: record the
span end as the cursor, slice the text up to the closer (dropping the
quote, and the lookahead character of the single-quote regex when
present), join any collected lines with single spaces and decode through
`set_raw_text`. -/
def multiline_close (style : Char) (tokLn : Option Nat) (tokInd : Nat) (sc : Scanner)
    (start : Nat) (lns : Option (List Chars)) (e1 : Nat) :
    Except Exc (Scanner × Option Token) :=
  let sc := { sc with line_pos := e1 }
  let text := pySlice sc.line_text start e1
  let text :=
    if (match text.getLast? with | some c => c == style | Option.none => false) then
      text.dropLast
    else text.dropLast.dropLast
  let raw :=
    match lns with
    | Option.none => text
    | some ls => pyJoin [' '] (ls ++ [text])
  match set_raw_text style raw with
  | .error e => .error e
  | .ok v => .ok (sc, some ⟨.scalar (some v) (some [style]), tokLn, some tokInd⟩)

/-- The collection loop of `Scanner._consume_multiline`: search the
style-specific closing-quote regex, pulling further lines until found;
`StopIteration` becomes the runaway-string `ParseError`. -/
def consume_multiline_go (style : Char) (isDouble : Bool) (tokLn : Option Nat) (tokInd : Nat) :
    Nat → Scanner → Nat → Option (List Chars) → Except Exc (Scanner × Option Token)
  | 0, _, _, _ => .error (.pyerr "fuel")
  | f + 1, sc, start, lns =>
    match (if isDouble then dqEnd sc.line_text start else sqEnd sc.line_text start) with
    | some e1 => multiline_close style tokLn tokInd sc start lns e1
    | Option.none =>
      let step :=
        match lns with
        | Option.none => (some [sc.line_text.drop start], 0)
        | some ls => (some (ls ++ [sc.line_text]), start)
      match next_line true sc with
      | .error .stop =>
        .error (.perr ("Unexpected end, runaway string at line " ++ lineNumberStr tokLn ++ "?")
          Option.none Option.none)
      | .error e => .error e
      | .ok (sc, _ignored) => consume_multiline_go style isDouble tokLn tokInd f sc step.2 step.1

/-- `Scanner._consume_multiline` entry (`consume_double_quote` /
`consume_single_quote`): the token records the opening-quote position,
scanning begins after the quote. -/
def consume_multiline (sc : Scanner) (start : Nat) (style : Char) (isDouble : Bool) :
    Except Exc (Scanner × Option Token) :=
  consume_multiline_go style isDouble sc.line_number start (sc.lines.length + 2) sc
    (start + 1) Option.none

/-! ## Scanner: `tokenized` and `next_token` -/

/-- `Scanner.tokenized`: empty spans become `EmptyLineToken`, otherwise
dispatch on the first character through `tokenizer_map`, falling back to
a plain `ScalarToken`. -/
def tokenized (sc : Scanner) (s e : Nat) : Except Exc (Scanner × Option Token) :=
  if s = e then .ok (sc, some ⟨.emptyLine, sc.line_number, some s⟩)
  else
    match sc.line_text.get? s with
    | Option.none => .error (.pyerr "IndexError")
    | some c =>
      if c = '#' then .ok (sc, Option.none)
      else if c = ':' then .ok (sc, some ⟨.key, sc.line_number, some s⟩)
      else if c = '!' then
        let text := pySlice sc.line_text s e
        .ok (sc, some ⟨.tag text (get_marshaller text), sc.line_number, some s⟩)
      else if c = '&' then
        .ok (sc, some ⟨.anchor (pySlice sc.line_text s e), sc.line_number, some s⟩)
      else if c = '*' then
        .ok (sc, some ⟨.alias (pySlice sc.line_text s e), sc.line_number, some s⟩)
      else if c = '>' ∨ c = '|' then consume_literal sc s
      else if c = '\x7b' then
        .ok ({ sc with flow_ender := '\x7d' :: sc.flow_ender },
          some ⟨.flowMapStart, sc.line_number, some s⟩)
      else if c = '\x7d' then
        match pop_flow_ender '\x7d' sc with
        | .error err => .error err
        | .ok sc => .ok (sc, some ⟨.flowEnd, sc.line_number, some s⟩)
      else if c = '[' then
        .ok ({ sc with flow_ender := ']' :: sc.flow_ender },
          some ⟨.flowSeqStart, sc.line_number, some s⟩)
      else if c = ']' then
        match pop_flow_ender ']' sc with
        | .error err => .error err
        | .ok sc => .ok (sc, some ⟨.flowEnd, sc.line_number, some s⟩)
      else if c = ',' then .ok (sc, some ⟨.flowEntry, sc.line_number, some s⟩)
      else if c = '\x22' then consume_multiline sc s '\x22' true
      else if c = '\x27' then consume_multiline sc s '\x27' false
      else
        .ok (sc, some ⟨.scalar (some (pySlice sc.line_text s e)) Option.none,
          sc.line_number, some s⟩)

/-- The in-line part of `Scanner.next_token` (after the pending check and
possible `next_line`). -/
def next_token_line (sc : Scanner) : Except Exc (Scanner × Option Token) :=
  let start := sc.line_pos
  let e := sc.line_size
  if start < e then
    match sepSearch (sc.flow_ender ≠ []) sc.line_text start with
    | some m =>
      if start < m.s1 then
        tokenized { sc with pending := (m.s2, m.e2) :: sc.pending, line_pos := m.s2 } start m.s2
      else tokenized { sc with line_pos := m.e2 } m.s2 m.e2
    | Option.none => tokenized { sc with line_pos := e } start e
  else tokenized sc start e

/-- `Scanner.next_token`. -/
def next_token (sc : Scanner) : Except Exc (Scanner × Option Token) :=
  match sc.pending with
  | (s, e) :: rest => tokenized { sc with pending := rest, line_pos := e } s e
  | [] =>
    if sc.line_size ≤ sc.line_pos then
      match next_line false sc with
      | .error err => .error err
      | .ok (sc, some t) => .ok (sc, some t)
      | .ok (sc, Option.none) => next_token_line sc
    else next_token_line sc

/-! ## Scanner: iteration (`Scanner.__iter__`) -/

/-- Outcome of iterating the scanner: clean completion (ending in
`StreamEnd`) or an escaping exception. -/
inductive ScanOut where
  | done : ScanOut
  | err : Exc → ScanOut
deriving DecidableEq

/-- The `ParseError.complete` calls of `Scanner.__iter__`: fill missing
coordinates from the last yielded token, then from the cursor. -/
def complete_err (e : Exc) (last : Option Token) (sc : Scanner) : Exc :=
  match e with
  | .perr msg l c =>
    let l := match last with | some t => (if l = Option.none then t.line else l) | Option.none => l
    let c := match last with | some t => (if c = Option.none then t.indent else c) | Option.none => c
    let l := if l = Option.none then sc.line_number else l
    let c := if c = Option.none then some sc.line_pos else c
    .perr msg l c
  | e => e

/-- The token loop of `Scanner.__iter__`: yield tokens until
`StopIteration` (then yield `StreamEnd`) or an escaping exception
(`ParseError` is completed and re-raised; other exceptions propagate).
`last` is the loop variable `token`. -/
def scan_iter : Nat → Scanner → Option Token → List Token × ScanOut
  | 0, _, _ => ([], .err (.pyerr "fuel"))
  | f + 1, sc, last =>
    match next_token sc with
    | .error .stop => ([⟨.streamEnd, sc.line_number, some 0⟩], .done)
    | .error (.perr m l c) => ([], .err (complete_err (.perr m l c) last sc))
    | .error e => ([], .err e)
    | .ok (sc2, Option.none) => scan_iter f sc2 Option.none
    | .ok (sc2, some t) =>
      let (ts, o) := scan_iter f sc2 (some t)
      (t :: ts, o)

/-- `Scanner.__init__` on a fully materialized buffer. -/
def init_scanner (s : Chars) : Scanner :=
  { lines := (pySplitlines s).enum.map (fun p => (p.1 + 1, p.2))
    line_number := Option.none
    line_pos := 0
    line_size := 0
    line_text := []
    pending := []
    flow_ender := [] }

/-- Iterating `Scanner(buffer)`: the yielded token sequence together with
the outcome.  The fuel is a generous upper bound on the number of
`next_token` calls (each call consumes a pending span, at least one
character of the current line, or at least one buffered line). -/
def scan_tokens (s : String) : List Token × ScanOut :=
  let sc := init_scanner s.toList
  let fuel := 4 * s.toList.length + 4 * sc.lines.length + 16
  let (ts, o) := scan_iter fuel sc Option.none
  (⟨.streamStart, some 1, some 0⟩ :: ts, o)

/-! ## Parse-tree builder (`ParseNode`, `RootNode`) -/

/-- The three `ParseNode` subclasses. -/
inductive NKind where
  | map : NKind
  | list : NKind
  | scalar : NKind
deriving DecidableEq

/-- A `ParseNode`: kind, indent, inherited tag marshaller, and the staged
state (`is_temp`, `needs_apply`, `last_value`, `last_key`, `target`,
`anchor_token`).  The `prev` link is represented by the position in the
`Root.stack` list. -/
structure PNode where
  nkind : NKind
  indent : Option Nat
  marshaller : Option Marshaller
  is_temp : Bool
  needs_apply : Bool
  last_value : Value
  last_key : Value
  target : Value
  anchor : Option Chars

/-- `RootNode`: documents, node stack (list head = `self.head`), pending
tag marshaller with its indent, the `doc_consumed` flag and the anchors
table. -/
structure Root where
  docs : List Value
  stack : List PNode
  marshaller : Option Marshaller
  tag_indent : Option Nat
  doc_consumed : Bool
  anchors : List (Chars × Value)

/-- The `get_min` helper of the source (`None`-aware minimum). -/
def get_min : Option Nat → Option Nat → Option Nat
  | Option.none, v2 => v2
  | v1, Option.none => v1
  | some a, some b => if a < b then some a else some b

/-- `ParseNode.__init__`: a fresh node inherits and clears the pending tag
marshaller of the root, taking `get_min(indent, root.tag_indent)` as its
indent. -/
def new_node (r : Root) (k : NKind) (indent : Option Nat) : PNode × Root :=
  match r.marshaller with
  | some m =>
    (⟨k, get_min indent r.tag_indent, some m, false, false, .none, .none, .none, Option.none⟩,
     { r with marshaller := Option.none, tag_indent := Option.none })
  | Option.none =>
    (⟨k, indent, Option.none, false, false, .none, .none, .none, Option.none⟩, r)

/-- The `apply` methods of `ListNode` / `MapNode` / `ScalarNode`.  For
list and map nodes the target is always `None` or a collection of the
node kind, so the fallback arms are unreachable. -/
def node_apply (n : PNode) : PNode :=
  match n.nkind with
  | .list =>
    let t :=
      match n.target with
      | .list xs => Value.list (xs ++ [n.last_value])
      | _ => Value.list [n.last_value]
    { n with target := t, last_value := .none, needs_apply := false }
  | .map =>
    let es :=
      match n.target with
      | .dict es => es
      | _ => []
    { n with target := .dict (dictSet es n.last_key n.last_value),
             last_key := .none, last_value := .none, needs_apply := false }
  | .scalar => { n with target := n.last_value, last_value := .none, needs_apply := false }

/-- `ParseNode.auto_apply`: bind a pending anchor to the staged value in
the root anchors table, then apply if needed. -/
def node_auto_apply (r : Root) (n : PNode) : Root × PNode :=
  let (r, n) :=
    match n.anchor with
    | some a =>
      ({ r with anchors := strDictSet r.anchors a n.last_value }, { n with anchor := Option.none })
    | Option.none => (r, n)
  if n.needs_apply then (r, node_apply n) else (r, n)

/-- `RootNode.auto_apply`. -/
def root_auto_apply (r : Root) : Root :=
  match r.stack with
  | [] => r
  | n :: rest =>
    let (r2, n2) := node_auto_apply r n
    { r2 with stack := n2 :: rest }

/-- `ParseNode.set_value`: stage a value; a second non-`None` value is
joined to the staged one with a space through `"%s %s"` formatting. -/
def node_set_value (n : PNode) (v : Value) : PNode :=
  let lv :=
    match n.last_value with
    | .none => v
    | old =>
      match v with
      | .none => old
      | _ => Value.str (pyStr old ++ ' ' :: pyStr v)
  { n with needs_apply := true, last_value := lv }

/-- `set_key`: only map nodes accept keys; a still-pending previous key is
an internal error (unreachable here because `KeyToken` values are always
`None`, which the `is not None` check does not flag). -/
def node_set_key (n : PNode) (k : Value) : Except Exc PNode :=
  match n.nkind with
  | .map =>
    match n.last_key with
    | .none => .ok { n with last_key := k, needs_apply := true }
    | prev =>
      .error (.perr ("Internal error, previous key \x27" ++ String.mk (pyStr prev) ++
        "\x27 was not consumed") Option.none Option.none)
  | _ => .error (.perr "Key not allowed here" Option.none Option.none)

/-- `ParseNode.marshalled`: apply and clear the node marshaller. -/
def node_marshalled (n : PNode) (v : Value) : Except Exc (PNode × Value) :=
  match n.marshaller with
  | some m =>
    match marshaller_marshalled m v with
    | .error e => .error e
    | .ok v2 => .ok ({ n with marshaller := Option.none }, v2)
  | Option.none => .ok (n, v)

/-- `RootNode.marshalled`. -/
def root_marshalled (r : Root) (v : Value) : Except Exc (Root × Value) :=
  match r.marshaller with
  | some m =>
    match marshaller_marshalled m v with
    | .error e => .error e
    | .ok v2 => .ok ({ r with marshaller := Option.none }, v2)
  | Option.none => .ok (r, v)

/-- `RootNode.set_value`: record a completed document. -/
def root_set_value (r : Root) (v : Value) : Except Exc Root :=
  let r := { r with doc_consumed := true }
  match root_marshalled r v with
  | .error e => .error e
  | .ok (r, v) => .ok { r with docs := r.docs ++ [v] }

/-- `RootNode.pop`: auto-apply the popped node, marshal its target and
apply the value to the new head (or record a document). -/
def root_pop (r : Root) : Except Exc Root :=
  match r.stack with
  | [] => .error (.perr "check" Option.none Option.none)
  | popped :: rest =>
    let r := { r with stack := rest }
    let (r, popped) := node_auto_apply r popped
    match node_marshalled popped popped.target with
    | .error e => .error e
    | .ok (_popped, value) =>
      match r.stack with
      | head :: rest2 =>
        let head := node_set_value head value
        let (r2, head2) := node_auto_apply r head
        .ok { r2 with stack := head2 :: rest2 }
      | [] => root_set_value r value

/-- `RootNode.needs_new_node`. -/
def needs_new_node (r : Root) (indent : Option Nat) (k : NKind) : Bool :=
  match r.stack with
  | [] => true
  | h :: _ =>
    if h.nkind ≠ k then true
    else
      match indent with
      | Option.none => h.indent ≠ Option.none
      | some i =>
        match h.indent with
        | Option.none => false
        | some hi => hi < i

/-- `RootNode.needs_pop`. -/
def needs_pop (r : Root) (indent : Option Nat) : Bool :=
  match indent, r.stack with
  | some i, h :: _ =>
    match h.indent with
    | some hi => i < hi
    | Option.none => false
  | _, _ => false

/-- The `while self.needs_pop(indent): self.pop()` loop of `ensure_node`.
Each `pop` removes exactly one node, so `stack.length + 1` fuel always
suffices and the fuel branch is unreachable. -/
def pop_loop : Nat → Option Nat → Root → Except Exc Root
  | 0, _, r => .ok r
  | f + 1, indent, r =>
    if needs_pop r indent then
      match root_pop r with
      | .error e => .error e
      | .ok r2 => pop_loop f indent r2
    else .ok r

/-- The `while node.indent < self.head.indent: self.pop()` loop of
`RootNode.push`: reading `self.head.indent` on an emptied stack would be
an `AttributeError`, comparing against a `None` indent a `TypeError`
(both unreachable in practice). -/
def push_pop_loop : Nat → Nat → Root → Except Exc Root
  | 0, _, r => .ok r
  | f + 1, i, r =>
    match r.stack with
    | [] => .error (.pyerr "AttributeError: NoneType has no attribute indent")
    | h :: _ =>
      match h.indent with
      | Option.none => .error (.pyerr "TypeError: int-None comparison")
      | some hi =>
        if i < hi then
          match root_pop r with
          | .error e => .error e
          | .ok r2 => push_pop_loop f i r2
        else .ok r

/-- `RootNode.push`. -/
def root_push (r : Root) (node : PNode) : Except Exc Root :=
  match r.stack with
  | [] => .ok { r with doc_consumed := false, stack := [node] }
  | h :: _ =>
    match h.indent with
    | Option.none =>
      let node := { node with is_temp := node.indent ≠ Option.none }
      .ok { r with stack := node :: r.stack }
    | some _ =>
      match node.indent with
      | Option.none => .ok { r with stack := node :: r.stack }
      | some i =>
        match push_pop_loop (r.stack.length + 1) i r with
        | .error e => .error e
        | .ok r2 => .ok { r2 with stack := node :: r2.stack }

/-- `RootNode.ensure_node`: pop while too deep, optionally raise the
indent error and push a fresh node, then auto-apply. -/
def ensure_node (r : Root) (indent : Option Nat) (k : NKind) : Except Exc Root :=
  match pop_loop (r.stack.length + 1) indent r with
  | .error e => .error e
  | .ok r =>
    let step : Except Exc Root :=
      if needs_new_node r indent k then
        let guardErr : Option Nat :=
          if k = .list then
            match r.stack, indent with
            | h :: _, some i =>
              match h.indent with
              | some hi => if i < hi then some hi else Option.none
              | Option.none => Option.none
            | _, _ => Option.none
          else Option.none
        match guardErr with
        | some hi => .error (.indentErr hi)
        | Option.none =>
          let (node, r) := new_node r k indent
          root_push r node
      else .ok r
    match step with
    | .error e => .error e
    | .ok r => .ok (root_auto_apply r)

/-- `RootNode.push_key`. -/
def root_push_key (r : Root) (indent : Option Nat) (k : Value) : Except Exc Root :=
  match ensure_node r indent .map with
  | .error e => .error e
  | .ok r =>
    match r.stack with
    | [] => .error (.pyerr "AttributeError: head is None")
    | h :: rest =>
      match node_set_key h k with
      | .error e => .error e
      | .ok h2 => .ok { r with stack := h2 :: rest }

/-- `RootNode.push_value`: marshal through the pending root tag, make a
`ScalarNode` when the stack is empty, stage the value and pop temporary
nodes. -/
def root_push_value (r : Root) (indent : Option Nat) (v : Value) : Except Exc Root :=
  match root_marshalled r v with
  | .error e => .error e
  | .ok (r, v) =>
    let pushed : Except Exc Root :=
      match r.stack with
      | [] =>
        let (node, r) := new_node r .scalar indent
        root_push r node
      | _ => .ok r
    match pushed with
    | .error e => .error e
    | .ok r =>
      match r.stack with
      | [] => .error (.pyerr "AttributeError: head is None")
      | h :: rest =>
        let h2 := node_set_value h v
        let r := { r with stack := h2 :: rest }
        if h2.is_temp then root_pop r else .ok r

/-- The `while self.head: self.pop()` loop of `pop_doc`. -/
def pop_doc_loop : Nat → Root → Except Exc Root
  | 0, r => .ok r
  | f + 1, r =>
    match r.stack with
    | [] => .ok r
    | _ =>
      match root_pop r with
      | .error e => .error e
      | .ok r2 => pop_doc_loop f r2

/-- `RootNode.pop_doc`: flush the stack, or record an explicitly empty
document (the empty string) when one was started but never filled. -/
def root_pop_doc (r : Root) : Except Exc Root :=
  match r.stack with
  | [] => if ¬ r.doc_consumed then root_set_value r (.str []) else .ok r
  | _ => pop_doc_loop (r.stack.length + 1) r

/-- `Token.consume_token` dispatch over the token subclasses. -/
def consume_token (t : Token) (r : Root) : Except Exc Root :=
  match t.kind with
  | .streamStart => .ok r
  | .streamEnd => root_pop_doc r
  | .docStart => root_pop_doc r
  | .docEnd => root_pop_doc r
  | .flowMapStart =>
    let (node, r) := new_node r .map Option.none
    root_push r node
  | .flowSeqStart =>
    let (node, r) := new_node r .list Option.none
    root_push r node
  | .flowEnd => root_pop r
  | .flowEntry => .ok (root_auto_apply r)
  | .blockEntry => ensure_node r t.indent .list
  | .emptyLine => .ok r
  | .directive _ _ => .ok r
  | .anchor v =>
    match r.stack with
    | [] => .error (.pyerr "AttributeError: head is None")
    | h :: rest => .ok { r with stack := { h with anchor := some v } :: rest }
  | .alias v =>
    let value := (strDictGet r.anchors v).getD .none
    root_push_value r t.indent value
  | .tag _ m =>
    if r.marshaller ≠ Option.none then
      .error (.perr "2 consecutive tags given" Option.none Option.none)
    else .ok { r with marshaller := m, tag_indent := t.indent }
  | .key => root_push_key r t.indent .none
  | .scalar v _style =>
    root_push_value r t.indent (match v with | some s => Value.str s | Option.none => .none)

/-- The token loop of `RootNode.deserialized`. -/
def deserialized_tokens : List Token → Root → Except Exc Root
  | [], r => .ok r
  | t :: ts, r =>
    match consume_token t r with
    | .error e => .error e
    | .ok r2 => deserialized_tokens ts r2

/-- The `simplified` helper: a one-document list collapses to the single
document (the argument is always a list, so the `isinstance` guard of
the source is vacuous). -/
def simplified (docs : List Value) : Value :=
  if docs.length = 1 then docs.headD .none else .list docs

/-- A fresh `RootNode`. -/
def init_root : Root :=
  { docs := [], stack := [], marshaller := Option.none, tag_indent := Option.none,
    doc_consumed := true, anchors := [] }

/-- `load` / `load_string`: scan and fold the tokens into documents.
The scanner is lazy in the source, so the builder consumes exactly the
tokens yielded before any scanner exception; folding the yielded prefix
first and surfacing the scan exception only when the builder finished
without error reproduces that interleaving, since the builder is
deterministic. -/
def load (s : String) : Except Exc Value :=
  match scan_tokens s with
  | (toks, out) =>
    match deserialized_tokens toks init_root with
    | .error e => .error e
    | .ok r =>
      match out with
      | .done => .ok (simplified r.docs)
      | .err e => .error e

/-- Observation of `load` before `simplified`: the document list of the
final root. -/
def load_docs (s : String) : Except Exc (List Value) :=
  match scan_tokens s with
  | (toks, out) =>
    match deserialized_tokens toks init_root with
    | .error e => .error e
    | .ok r =>
      match out with
      | .done => .ok r.docs
      | .err e => .error e

/-- Observation of the final root state (for the anchors table), over the
yielded token prefix regardless of the scan outcome. -/
def load_root (s : String) : Except Exc Root :=
  deserialized_tokens (scan_tokens s).1 init_root

/-! ## Observation functions for the stated properties -/

/-- Recogniser for `StreamStartToken`. -/
def isStreamStart (t : Token) : Bool :=
  match t.kind with
  | .streamStart => true
  | _ => false

/-- Recogniser for `StreamEndToken`. -/
def isStreamEnd (t : Token) : Bool :=
  match t.kind with
  | .streamEnd => true
  | _ => false

/-- The effect of one token on a simulated flow-opener stack: flow starts
push the ender character, `FlowEnd` pops (failing on an empty stack),
every other token leaves the stack unchanged. -/
def flowStep (k : TokKind) (st : List Char) : Option (List Char) :=
  match k with
  | .flowMapStart => some ('\x7d' :: st)
  | .flowSeqStart => some (']' :: st)
  | .flowEnd =>
    match st with
    | [] => Option.none
    | _ :: r => some r
  | _ => some st

/-- Run `flowStep` over a token list; `Option.none` means some `FlowEnd`
arrived on an empty stack (an unmatched closer).  A fully balanced
sequence maps `[]` to `some []`. -/
def flowSimAll : List Token → List Char → Option (List Char)
  | [], st => some st
  | t :: ts, st =>
    match flowStep t.kind st with
    | some st2 => flowSimAll ts st2
    | Option.none => Option.none

/-- A token kind that `next_token` can yield (not a stream sentinel). -/
def innerTok (t : Token) : Prop := isStreamStart t = false ∧ isStreamEnd t = false

/-- Specification of one `next_token` step: a `None` result leaves the
flow stack unchanged; a yielded token is never a stream sentinel and
transforms the flow-ender stack according to `flowStep`. -/
def stepOk (sc sc' : Scanner) (t? : Option Token) : Prop :=
  match t? with
  | Option.none => sc'.flow_ender = sc.flow_ender
  | some t => innerTok t ∧ flowStep t.kind sc.flow_ender = some sc'.flow_ender

/-- The indents of the nodes on the stack, top first. -/
def stack_indents (r : Root) : List (Option Nat) := r.stack.map (fun n => n.indent)

/-- Adjacent monotonicity of stack indents (top first): whenever two
neighbouring nodes both carry an indent, the lower one is not deeper. -/
def adjMono : List (Option Nat) → Bool
  | some b :: some a :: rest => (a ≤ b) && adjMono (some a :: rest)
  | _ :: rest => adjMono rest
  | [] => true

/-- The indents of the open block nodes (non-null indents), top first. -/
def blockIndents (r : Root) : List Nat := (stack_indents r).filterMap id

/-- Strictly decreasing top-first, i.e. strictly increasing from the
bottom of the stack to the top. -/
def strictDesc : List Nat → Bool
  | a :: b :: rest => (b < a) && strictDesc (b :: rest)
  | _ => true

/-- Errors other than the indent guard error of `ensure_node`. -/
def notIndent (e : Exc) : Bool :=
  match e with
  | .indentErr _ => false
  | _ => true

/-! ## Scanner step lemmas -/

/-- `DirectiveToken` construction always yields a directive kind. -/
theorem directiveToken_kind (ln : Option Nat) (text : Chars) :
    ∃ a b, (directiveToken ln text).kind = TokKind.directive a b := by
  simp only [directiveToken]
  split_ifs
  · exact ⟨_, _, rfl⟩
  · exact ⟨_, _, rfl⟩
  · rcases hp : pyPartition (decommented text) ' ' with ⟨name, fnd, rest⟩
    exact ⟨_, _, rfl⟩

/-- `line_advanced` does not touch the flow stack. -/
theorem line_advanced_flow (sc : Scanner) (n : Nat) (text : Chars)
    (rest : List (Nat × Chars)) : (line_advanced sc n text rest).flow_ender = sc.flow_ender := rfl

/-- One `next_line` iteration yields no stream sentinel and leaves the
flow stack unchanged. -/
theorem next_line_one_ok (keep : Bool) (sc sc' : Scanner) (t? : Option Token)
    (h : next_line_one keep sc = some (.ok (sc', t?))) :
    sc'.flow_ender = sc.flow_ender ∧
    ∀ t, t? = some t → innerTok t ∧ (∀ st, flowStep t.kind st = some st) := by
  unfold next_line_one at h
  split at h
  all_goals try split_ifs at h
  case h_1 =>
    simp only [Option.some_inj, Except.ok.injEq, Prod.mk.injEq] at h
    obtain ⟨h1, h2⟩ := h
    subst h1; subst h2
    exact ⟨rfl, by intro t ht; cases ht⟩
  case pos =>
    simp only [Option.some_inj, Except.ok.injEq, Prod.mk.injEq] at h
    obtain ⟨h1, h2⟩ := h
    subst h1; subst h2
    exact ⟨rfl, by intro t ht; cases ht⟩
  case pos => exact Except.noConfusion (Option.some.inj h)
  case neg =>
    simp only [Option.some_inj, Except.ok.injEq, Prod.mk.injEq] at h
    obtain ⟨h1, h2⟩ := h
    subst h1; subst h2
    refine ⟨rfl, fun t ht => ?_⟩
    cases ht
    obtain ⟨a, b, hk⟩ := directiveToken_kind sc.line_number sc.line_text
    exact ⟨by simp [innerTok, isStreamStart, isStreamEnd, hk],
           fun st => by simp [flowStep, hk]⟩
  all_goals
    simp only [Option.some_inj, Except.ok.injEq, Prod.mk.injEq] at h
    obtain ⟨h1, h2⟩ := h
    subst h1; subst h2
    exact ⟨rfl, by intro t ht; cases ht; exact ⟨⟨rfl, rfl⟩, fun st => rfl⟩⟩

/-- Tokens produced by `next_line` are not stream sentinels and do not
touch the flow stack. -/
theorem next_line_go_ok (keep : Bool) :
    ∀ (ls : List (Nat × Chars)) (sc sc' : Scanner) (t? : Option Token),
      next_line_go keep ls sc = .ok (sc', t?) →
      sc'.flow_ender = sc.flow_ender ∧
      ∀ t, t? = some t → innerTok t ∧ (∀ st, flowStep t.kind st = some st) := by
  intro ls
  induction ls with
  | nil =>
    intro sc sc' t? h
    simp only [next_line_go] at h
    exact Except.noConfusion h
  | cons p rest ih =>
    intro sc sc' t? h
    obtain ⟨n, text⟩ := p
    simp only [next_line_go] at h
    split at h
    · rename_i r hr
      subst h
      have := next_line_one_ok keep (line_advanced sc n text rest) sc' t? hr
      rwa [line_advanced_flow] at this
    · have := ih (line_advanced sc n text rest) sc' t? h
      rwa [line_advanced_flow] at this

/-- Step specification of `next_line`. -/
theorem next_line_ok (keep : Bool) (sc sc' : Scanner) (t? : Option Token)
    (h : next_line keep sc = .ok (sc', t?)) :
    sc'.flow_ender = sc.flow_ender ∧
    ∀ t, t? = some t → innerTok t ∧ (∀ st, flowStep t.kind st = some st) :=
  next_line_go_ok keep sc.lines sc sc' t? h

/-- `pop_flow_ender` succeeds exactly by popping the expected ender. -/
theorem pop_flow_ender_ok (e : Char) (sc sc' : Scanner)
    (h : pop_flow_ender e sc = .ok sc') :
    sc.flow_ender = e :: sc'.flow_ender := by
  unfold pop_flow_ender at h
  split at h
  · exact Except.noConfusion h
  · rename_i popped rest heq
    split at h
    · exact Except.noConfusion h
    · rename_i hne
      rw [Decidable.not_not] at hne
      cases h
      rw [heq, hne]

/-- The finishing branch of `_consume_multiline` yields a scalar token and
keeps the flow stack. -/
theorem multiline_close_ok (style : Char) (tokLn : Option Nat) (tokInd : Nat) (sc : Scanner)
    (start : Nat) (lns : Option (List Chars)) (e1 : Nat) (sc' : Scanner) (t? : Option Token)
    (h : multiline_close style tokLn tokInd sc start lns e1 = .ok (sc', t?)) :
    sc'.flow_ender = sc.flow_ender ∧
    ∀ t, t? = some t → innerTok t ∧ (∀ st, flowStep t.kind st = some st) := by
  simp only [multiline_close] at h
  repeat' split at h
  all_goals
    first
    | exact Except.noConfusion h
    | (simp only [Except.ok.injEq, Prod.mk.injEq] at h
       obtain ⟨h1, h2⟩ := h
       subst h1; subst h2
       exact ⟨rfl, by intro t ht; cases ht; exact ⟨⟨rfl, rfl⟩, fun st => rfl⟩⟩)

/-- The literal-block collection loop yields a scalar token and keeps the
flow stack. -/
theorem consume_literal_go_ok (folded : Bool) (keep : Option Bool) (tokLn tokInd : Option Nat)
    (style : Chars) :
    ∀ (f : Nat) (sc : Scanner) (indent : Option Nat) (lns : List Chars)
      (sc' : Scanner) (t? : Option Token),
      consume_literal_go folded keep tokLn tokInd style f sc indent lns = .ok (sc', t?) →
      sc'.flow_ender = sc.flow_ender ∧
      ∀ t, t? = some t → innerTok t ∧ (∀ st, flowStep t.kind st = some st) := by
  intro f
  induction f with
  | zero =>
    intro sc indent lns sc' t? h
    simp only [consume_literal_go] at h
    exact Except.noConfusion h
  | succ f ih =>
    intro sc indent lns sc' t? h
    simp only [consume_literal_go] at h
    split at h
    · exact Except.noConfusion h
    · rename_i sc1 ig heq
      have hnl := (next_line_ok true sc sc1 ig heq).1
      split at h
      · simp only [Except.ok.injEq, Prod.mk.injEq] at h
        obtain ⟨h1, h2⟩ := h
        subst h1; subst h2
        exact ⟨hnl, by intro t ht; cases ht; exact ⟨⟨rfl, rfl⟩, fun st => rfl⟩⟩
      · have := ih sc1 _ _ sc' t? h
        exact ⟨this.1.trans hnl, this.2⟩

/-- The quoted-scalar collection loop yields a scalar token and keeps the
flow stack. -/
theorem consume_multiline_go_ok (style : Char) (isDouble : Bool) (tokLn : Option Nat)
    (tokInd : Nat) :
    ∀ (f : Nat) (sc : Scanner) (start : Nat) (lns : Option (List Chars))
      (sc' : Scanner) (t? : Option Token),
      consume_multiline_go style isDouble tokLn tokInd f sc start lns = .ok (sc', t?) →
      sc'.flow_ender = sc.flow_ender ∧
      ∀ t, t? = some t → innerTok t ∧ (∀ st, flowStep t.kind st = some st) := by
  intro f
  induction f with
  | zero =>
    intro sc start lns sc' t? h
    simp only [consume_multiline_go] at h
    exact Except.noConfusion h
  | succ f ih =>
    intro sc start lns sc' t? h
    simp only [consume_multiline_go] at h
    split at h
    · exact multiline_close_ok style tokLn tokInd sc start lns _ sc' t? h
    · split at h
      · exact Except.noConfusion h
      · exact Except.noConfusion h
      · rename_i sc1 ig heq
        have hnl := (next_line_ok true sc sc1 ig heq).1
        have := ih sc1 _ _ sc' t? h
        exact ⟨this.1.trans hnl, this.2⟩

theorem consume_literal_ok (sc : Scanner) (start : Nat) (sc' : Scanner) (t? : Option Token)
    (h : consume_literal sc start = .ok (sc', t?)) :
    sc'.flow_ender = sc.flow_ender ∧
    ∀ t, t? = some t → innerTok t ∧ (∀ st, flowStep t.kind st = some st) := by
  unfold consume_literal at h
  split at h
  · exact Except.noConfusion h
  · exact consume_literal_go_ok _ _ _ _ _ _ _ _ _ _ _ h

theorem consume_multiline_ok (sc : Scanner) (start : Nat) (style : Char) (isDouble : Bool)
    (sc' : Scanner) (t? : Option Token)
    (h : consume_multiline sc start style isDouble = .ok (sc', t?)) :
    sc'.flow_ender = sc.flow_ender ∧
    ∀ t, t? = some t → innerTok t ∧ (∀ st, flowStep t.kind st = some st) :=
  consume_multiline_go_ok style isDouble sc.line_number start _ sc _ _ sc' t? h

/-- Step specification of `tokenized`: no stream sentinels; the flow
stack changes exactly by `flowStep` of the yielded token. -/
theorem tokenized_ok (sc : Scanner) (s e : Nat) (sc' : Scanner) (t? : Option Token)
    (h : tokenized sc s e = .ok (sc', t?)) :
    (t? = Option.none → sc'.flow_ender = sc.flow_ender) ∧
    (∀ t, t? = some t → innerTok t ∧ flowStep t.kind sc.flow_ender = some sc'.flow_ender) := by
  unfold tokenized at h
  by_cases hse : s = e
  · rw [if_pos hse] at h
    simp only [Except.ok.injEq, Prod.mk.injEq] at h
    obtain ⟨h1, h2⟩ := h
    subst h1; subst h2
    exact ⟨fun hn => (by cases hn), fun t ht => (by cases ht; exact ⟨⟨rfl, rfl⟩, rfl⟩)⟩
  · rw [if_neg hse] at h
    rcases hget : sc.line_text.get? s with _ | c
    · simp only [hget] at h
      exact Except.noConfusion h
    · simp only [hget] at h
      by_cases h1 : c = '#'
      · rw [if_pos h1] at h
        simp only [Except.ok.injEq, Prod.mk.injEq] at h
        obtain ⟨ha, hb⟩ := h
        subst ha; subst hb
        exact ⟨fun _ => rfl, fun t ht => (by cases ht)⟩
      · rw [if_neg h1] at h
        by_cases h2 : c = ':'
        · rw [if_pos h2] at h
          simp only [Except.ok.injEq, Prod.mk.injEq] at h
          obtain ⟨ha, hb⟩ := h
          subst ha; subst hb
          exact ⟨fun hn => (by cases hn), fun t ht => (by cases ht; exact ⟨⟨rfl, rfl⟩, rfl⟩)⟩
        · rw [if_neg h2] at h
          by_cases h3 : c = '!'
          · rw [if_pos h3] at h
            simp only [Except.ok.injEq, Prod.mk.injEq] at h
            obtain ⟨ha, hb⟩ := h
            subst ha; subst hb
            exact ⟨fun hn => (by cases hn), fun t ht => (by cases ht; exact ⟨⟨rfl, rfl⟩, rfl⟩)⟩
          · rw [if_neg h3] at h
            by_cases h4 : c = '&'
            · rw [if_pos h4] at h
              simp only [Except.ok.injEq, Prod.mk.injEq] at h
              obtain ⟨ha, hb⟩ := h
              subst ha; subst hb
              exact ⟨fun hn => (by cases hn), fun t ht => (by cases ht; exact ⟨⟨rfl, rfl⟩, rfl⟩)⟩
            · rw [if_neg h4] at h
              by_cases h5 : c = '*'
              · rw [if_pos h5] at h
                simp only [Except.ok.injEq, Prod.mk.injEq] at h
                obtain ⟨ha, hb⟩ := h
                subst ha; subst hb
                exact ⟨fun hn => (by cases hn), fun t ht => (by cases ht; exact ⟨⟨rfl, rfl⟩, rfl⟩)⟩
              · rw [if_neg h5] at h
                by_cases h6 : c = '>' ∨ c = '|'
                · rw [if_pos h6] at h
                  obtain ⟨hf, hs⟩ := consume_literal_ok _ _ _ _ h
                  exact ⟨fun _ => hf,
                    fun t ht => ⟨(hs t ht).1, by rw [hf]; exact (hs t ht).2 _⟩⟩
                · rw [if_neg h6] at h
                  by_cases h7 : c = '\x7b'
                  · rw [if_pos h7] at h
                    simp only [Except.ok.injEq, Prod.mk.injEq] at h
                    obtain ⟨ha, hb⟩ := h
                    subst ha; subst hb
                    exact ⟨fun hn => (by cases hn),
                      fun t ht => (by cases ht; exact ⟨⟨rfl, rfl⟩, rfl⟩)⟩
                  · rw [if_neg h7] at h
                    by_cases h8 : c = '\x7d'
                    · rw [if_pos h8] at h
                      rcases hpop : pop_flow_ender '\x7d' sc with err | sc2
                      · rw [hpop] at h
                        exact Except.noConfusion h
                      · rw [hpop] at h
                        have hcons := pop_flow_ender_ok _ sc sc2 hpop
                        simp only [Except.ok.injEq, Prod.mk.injEq] at h
                        obtain ⟨ha, hb⟩ := h
                        subst ha; subst hb
                        refine ⟨fun hn => (by cases hn), fun t ht => ?_⟩
                        cases ht
                        refine ⟨⟨rfl, rfl⟩, ?_⟩
                        rw [hcons]
                        rfl
                    · rw [if_neg h8] at h
                      by_cases h9 : c = '['
                      · rw [if_pos h9] at h
                        simp only [Except.ok.injEq, Prod.mk.injEq] at h
                        obtain ⟨ha, hb⟩ := h
                        subst ha; subst hb
                        exact ⟨fun hn => (by cases hn),
                          fun t ht => (by cases ht; exact ⟨⟨rfl, rfl⟩, rfl⟩)⟩
                      · rw [if_neg h9] at h
                        by_cases h10 : c = ']'
                        · rw [if_pos h10] at h
                          rcases hpop : pop_flow_ender ']' sc with err | sc2
                          · rw [hpop] at h
                            exact Except.noConfusion h
                          · rw [hpop] at h
                            have hcons := pop_flow_ender_ok _ sc sc2 hpop
                            simp only [Except.ok.injEq, Prod.mk.injEq] at h
                            obtain ⟨ha, hb⟩ := h
                            subst ha; subst hb
                            refine ⟨fun hn => (by cases hn), fun t ht => ?_⟩
                            cases ht
                            refine ⟨⟨rfl, rfl⟩, ?_⟩
                            rw [hcons]
                            rfl
                        · rw [if_neg h10] at h
                          by_cases h11 : c = ','
                          · rw [if_pos h11] at h
                            simp only [Except.ok.injEq, Prod.mk.injEq] at h
                            obtain ⟨ha, hb⟩ := h
                            subst ha; subst hb
                            exact ⟨fun hn => (by cases hn),
                              fun t ht => (by cases ht; exact ⟨⟨rfl, rfl⟩, rfl⟩)⟩
                          · rw [if_neg h11] at h
                            by_cases h12 : c = '\x22'
                            · rw [if_pos h12] at h
                              obtain ⟨hf, hs⟩ := consume_multiline_ok _ _ _ _ _ _ h
                              exact ⟨fun _ => hf,
                                fun t ht => ⟨(hs t ht).1, by rw [hf]; exact (hs t ht).2 _⟩⟩
                            · rw [if_neg h12] at h
                              by_cases h13 : c = '\x27'
                              · rw [if_pos h13] at h
                                obtain ⟨hf, hs⟩ := consume_multiline_ok _ _ _ _ _ _ h
                                exact ⟨fun _ => hf,
                                  fun t ht => ⟨(hs t ht).1, by rw [hf]; exact (hs t ht).2 _⟩⟩
                              · rw [if_neg h13] at h
                                simp only [Except.ok.injEq, Prod.mk.injEq] at h
                                obtain ⟨ha, hb⟩ := h
                                subst ha; subst hb
                                exact ⟨fun hn => (by cases hn),
                                  fun t ht => (by cases ht; exact ⟨⟨rfl, rfl⟩, rfl⟩)⟩

/-- `tokenized_ok` stated against any scanner with the same flow stack
(the record updates of `next_token` never touch `flow_ender`). -/
theorem tokenized_ok_flow (sc0 sc : Scanner) (s e : Nat) (sc' : Scanner) (t? : Option Token)
    (h : tokenized sc0 s e = .ok (sc', t?)) (hfl : sc0.flow_ender = sc.flow_ender) :
    (t? = Option.none → sc'.flow_ender = sc.flow_ender) ∧
    (∀ t, t? = some t → innerTok t ∧ flowStep t.kind sc.flow_ender = some sc'.flow_ender) := by
  obtain ⟨g1, g2⟩ := tokenized_ok sc0 s e sc' t? h
  rw [hfl] at g1 g2
  exact ⟨g1, g2⟩

/-- Step specification of the in-line part of `next_token`. -/
theorem next_token_line_ok (sc sc' : Scanner) (t? : Option Token)
    (h : next_token_line sc = .ok (sc', t?)) :
    (t? = Option.none → sc'.flow_ender = sc.flow_ender) ∧
    (∀ t, t? = some t → innerTok t ∧ flowStep t.kind sc.flow_ender = some sc'.flow_ender) := by
  simp only [next_token_line] at h
  split at h
  · split at h
    · split at h
      · exact tokenized_ok_flow _ sc _ _ sc' t? h rfl
      · exact tokenized_ok_flow _ sc _ _ sc' t? h rfl
    · exact tokenized_ok_flow _ sc _ _ sc' t? h rfl
  · exact tokenized_ok_flow _ sc _ _ sc' t? h rfl

/-- Step specification of `next_token`: no stream sentinels; the
flow-ender stack evolves by `flowStep`. -/
theorem next_token_ok (sc sc' : Scanner) (t? : Option Token)
    (h : next_token sc = .ok (sc', t?)) :
    (t? = Option.none → sc'.flow_ender = sc.flow_ender) ∧
    (∀ t, t? = some t → innerTok t ∧ flowStep t.kind sc.flow_ender = some sc'.flow_ender) := by
  unfold next_token at h
  split at h
  · exact tokenized_ok_flow _ sc _ _ sc' t? h rfl
  · split at h
    · split at h
      · exact Except.noConfusion h
      · rename_i sc1 t hnl
        simp only [Except.ok.injEq, Prod.mk.injEq] at h
        obtain ⟨ha, hb⟩ := h
        subst ha; subst hb
        obtain ⟨hf, hs⟩ := next_line_ok false sc sc1 (some t) hnl
        refine ⟨fun hn => (by cases hn), fun u hu => ?_⟩
        cases hu
        obtain ⟨hin, hfs⟩ := hs t rfl
        refine ⟨hin, ?_⟩
        rw [hfs sc.flow_ender, hf]
      · rename_i sc1 hnl
        obtain ⟨hf, _⟩ := next_line_ok false sc sc1 Option.none hnl
        obtain ⟨g1, g2⟩ := next_token_line_ok sc1 sc' t? h
        refine ⟨fun hn => (g1 hn).trans hf, fun u hu => ?_⟩
        obtain ⟨hin, hfs⟩ := g2 u hu
        rw [hf] at hfs
        exact ⟨hin, hfs⟩
    · exact next_token_line_ok sc sc' t? h

/-- Invariant of the token loop of `Scanner.__iter__`: when iteration
completes (outcome `done`), the yielded sequence ends in exactly one
`StreamEnd`, and the flow simulation started from the scanner state
never pops an empty stack. -/
theorem scan_iter_ok :
    ∀ (f : Nat) (sc : Scanner) (last : Option Token) (ts : List Token),
      scan_iter f sc last = (ts, ScanOut.done) →
      (∃ tl, ts.getLast? = some tl ∧ isStreamEnd tl = true) ∧
      ts.countP (fun t => isStreamEnd t) = 1 ∧
      (flowSimAll ts sc.flow_ender).isSome = true := by
  intro f
  induction f with
  | zero =>
    intro sc last ts h
    simp only [scan_iter, Prod.mk.injEq] at h
    exact absurd h.2 (by simp)
  | succ f ih =>
    intro sc last ts h
    simp only [scan_iter] at h
    split at h
    · -- StopIteration: the StreamEnd token
      simp only [Prod.mk.injEq] at h
      obtain ⟨h1, _⟩ := h
      subst h1
      refine ⟨⟨_, rfl, rfl⟩, rfl, rfl⟩
    · simp only [Prod.mk.injEq] at h
      exact absurd h.2 (by simp)
    · simp only [Prod.mk.injEq] at h
      exact absurd h.2 (by simp)
    · -- next_token yielded nothing
      rename_i sc2 hnt
      obtain ⟨g1, _⟩ := next_token_ok sc sc2 Option.none hnt
      have := ih sc2 Option.none ts h
      rw [g1 rfl] at this
      exact this
    · -- next_token yielded a token
      rename_i sc2 t hnt
      obtain ⟨_, g2⟩ := next_token_ok sc sc2 (some t) hnt
      obtain ⟨⟨hin1, hin2⟩, hfs⟩ := g2 t rfl
      rcases hsi : scan_iter f sc2 (some t) with ⟨ts', o⟩
      rw [hsi] at h
      simp only [Prod.mk.injEq] at h
      obtain ⟨h1, h2⟩ := h
      subst h1
      subst h2
      obtain ⟨⟨tl, htl, htlse⟩, hcnt, hflow⟩ := ih sc2 (some t) ts' hsi
      refine ⟨⟨tl, ?_, htlse⟩, ?_, ?_⟩
      · rcases ts' with _ | ⟨x, rest⟩
        · exact absurd htl (by simp)
        · rw [List.getLast?_cons_cons]
          exact htl
      · rw [List.countP_cons, hcnt, hin2]
        rfl
      · show (flowSimAll (t :: ts') sc.flow_ender).isSome = true
        unfold flowSimAll
        rw [hfs]
        exact hflow

/-- Decomposition of `scan_tokens`: the result is `StreamStart` followed
by the loop output. -/
theorem scan_tokens_decomp (s : String) (ts : List Token) (o : ScanOut)
    (h : scan_tokens s = (ts, o)) :
    ∃ ts1, ts = ⟨.streamStart, some 1, some 0⟩ :: ts1 ∧
      scan_iter (4 * s.toList.length + 4 * (init_scanner s.toList).lines.length + 16)
        (init_scanner s.toList) Option.none = (ts1, o) := by
  simp only [scan_tokens] at h
  rcases hsi : scan_iter (4 * s.toList.length + 4 * (init_scanner s.toList).lines.length + 16)
      (init_scanner s.toList) Option.none with ⟨ts1, o1⟩
  rw [hsi] at h
  simp only [Prod.mk.injEq] at h
  obtain ⟨h1, h2⟩ := h
  subst h2
  exact ⟨ts1, h1.symm, rfl⟩

/-! ## Builder lemmas: stack indents -/

/-- `node_apply` never changes the node's indent. -/
theorem node_apply_indent (n : PNode) : (node_apply n).indent = n.indent := by
  unfold node_apply
  split <;> rfl

/-- `node_auto_apply` does not touch the stack of the root. -/
theorem node_auto_apply_stack (r : Root) (n : PNode) :
    (node_auto_apply r n).1.stack = r.stack := by
  unfold node_auto_apply
  rcases ha : n.anchor with _ | a
  all_goals simp only [ha]
  all_goals split
  all_goals rfl

/-- `node_auto_apply` never changes the node's indent. -/
theorem node_auto_apply_indent (r : Root) (n : PNode) :
    (node_auto_apply r n).2.indent = n.indent := by
  unfold node_auto_apply
  rcases ha : n.anchor with _ | a
  all_goals simp only [ha]
  all_goals split
  · exact node_apply_indent _
  · rfl
  · exact node_apply_indent _
  · rfl

/-- `node_set_value` never changes the node's indent. -/
theorem node_set_value_indent (n : PNode) (v : Value) :
    (node_set_value n v).indent = n.indent := rfl

/-- `root_marshalled` does not touch the stack. -/
theorem root_marshalled_stack (r : Root) (v : Value) (r' : Root) (v' : Value)
    (h : root_marshalled r v = .ok (r', v')) : r'.stack = r.stack := by
  unfold root_marshalled at h
  split at h
  · split at h
    · exact Except.noConfusion h
    · simp only [Except.ok.injEq, Prod.mk.injEq] at h
      obtain ⟨h1, _⟩ := h
      subst h1
      rfl
  · simp only [Except.ok.injEq, Prod.mk.injEq] at h
    obtain ⟨h1, _⟩ := h
    subst h1
    rfl

/-- `root_set_value` does not touch the stack. -/
theorem root_set_value_stack (r : Root) (v : Value) (r' : Root)
    (h : root_set_value r v = .ok r') : r'.stack = r.stack := by
  simp only [root_set_value] at h
  rcases hm : root_marshalled { r with doc_consumed := true } v with e | ⟨r1, v1⟩
  · rw [hm] at h
    exact Except.noConfusion h
  · rw [hm] at h
    simp only [Except.ok.injEq] at h
    subst h
    exact root_marshalled_stack { r with doc_consumed := true } v r1 v1 hm

/-- `root_pop` removes exactly the top node: the indents of the result
stack are the tail of the previous indents. -/
theorem root_pop_indents (r r' : Root) (h : root_pop r = .ok r') :
    ∃ i rest, stack_indents r = i :: rest ∧ stack_indents r' = rest := by
  simp only [root_pop] at h
  split at h
  · exact Except.noConfusion h
  · rename_i popped rest heq
    rcases hauto : node_auto_apply { r with stack := rest } popped with ⟨r1, popped1⟩
    simp only [hauto] at h
    have hr1 : r1.stack = rest := by
      have hs := node_auto_apply_stack { r with stack := rest } popped
      rw [hauto] at hs
      exact hs
    rcases hm : node_marshalled popped1 popped1.target with e | ⟨popped2, value⟩
    · simp only [hm] at h
      exact Except.noConfusion h
    · simp only [hm] at h
      rcases hr : r1.stack with _ | ⟨head, rest2⟩
      · simp only [hr] at h
        have hst := root_set_value_stack r1 value r' h
        refine ⟨popped.indent, [], ?_, ?_⟩
        · simp only [stack_indents, heq, List.map_cons]
          have : rest = [] := by rw [← hr1, hr]
          rw [this]
          rfl
        · simp only [stack_indents, hst, hr]
          rfl
      · simp only [hr] at h
        rcases hauto2 : node_auto_apply r1 (node_set_value head value) with ⟨r2, head2⟩
        simp only [hauto2] at h
        simp only [Except.ok.injEq] at h
        subst h
        have hind : head2.indent = head.indent := by
          have hi := node_auto_apply_indent r1 (node_set_value head value)
          rw [hauto2] at hi
          rw [hi, node_set_value_indent]
        refine ⟨popped.indent, head.indent :: rest2.map (fun n => n.indent), ?_, ?_⟩
        · simp only [stack_indents, heq, List.map_cons]
          have : rest = head :: rest2 := by rw [← hr1, hr]
          rw [this]
          simp only [List.map_cons]
        · simp only [stack_indents, List.map_cons, hind]

/-- Tail closure of adjacent monotonicity. -/
theorem adjMono_tail (x : Option Nat) (l : List (Option Nat))
    (h : adjMono (x :: l) = true) : adjMono l = true := by
  rcases x with _ | b
  · exact h
  · rcases l with _ | ⟨a, rest⟩
    · rfl
    · rcases a with _ | av
      · exact h
      · have h2 : (decide (av ≤ b) && adjMono (some av :: rest)) = true := h
        simp only [Bool.and_eq_true] at h2
        exact h2.2

/-- Extending a monotone stack with a deeper-or-equal top. -/
theorem adjMono_cons_some (i hi : Nat) (rest : List (Option Nat)) (hle : hi ≤ i)
    (h : adjMono (some hi :: rest) = true) :
    adjMono (some i :: some hi :: rest) = true := by
  show (decide (hi ≤ i) && adjMono (some hi :: rest)) = true
  simp only [Bool.and_eq_true]
  exact ⟨decide_eq_true hle, h⟩

/-- `root_pop` length accounting. -/
theorem root_pop_length (r r' : Root) (h : root_pop r = .ok r') :
    r'.stack.length + 1 = r.stack.length := by
  obtain ⟨i, rest, h1, h2⟩ := root_pop_indents r r' h
  have l1 : r.stack.length = (stack_indents r).length := (List.length_map _ _).symm
  have l2 : r'.stack.length = (stack_indents r').length := (List.length_map _ _).symm
  rw [l1, l2, h1, h2, List.length_cons]

/-- `root_pop` preserves adjacent monotonicity. -/
theorem root_pop_adjMono (r r' : Root) (h : root_pop r = .ok r')
    (hM : adjMono (stack_indents r) = true) : adjMono (stack_indents r') = true := by
  obtain ⟨i, rest, h1, h2⟩ := root_pop_indents r r' h
  rw [h2]
  rw [h1] at hM
  exact adjMono_tail i rest hM

/-- `pop_loop` preserves adjacent monotonicity. -/
theorem pop_loop_adjMono :
    ∀ (f : Nat) (ind : Option Nat) (r r' : Root), pop_loop f ind r = .ok r' →
      adjMono (stack_indents r) = true → adjMono (stack_indents r') = true := by
  intro f
  induction f with
  | zero =>
    intro ind r r' h hM
    simp only [pop_loop, Except.ok.injEq] at h
    subst h
    exact hM
  | succ f ih =>
    intro ind r r' h hM
    simp only [pop_loop] at h
    split at h
    · rcases hp : root_pop r with e | r1
      · rw [hp] at h
        exact Except.noConfusion h
      · rw [hp] at h
        exact ih ind r1 r' h (root_pop_adjMono r r1 hp hM)
    · simp only [Except.ok.injEq] at h
      subst h
      exact hM

/-- After `pop_loop` with sufficient fuel, the entry fits: `needs_pop` is
false (this is the loop exit condition, and the fuel bound
`stack.length + 1` is always sufficient because each `pop` removes one
node). -/
theorem pop_loop_post :
    ∀ (f : Nat) (ind : Option Nat) (r r' : Root), r.stack.length < f →
      pop_loop f ind r = .ok r' → needs_pop r' ind = false := by
  intro f
  induction f with
  | zero =>
    intro ind r r' hlen h
    exact absurd hlen (Nat.not_lt_zero _)
  | succ f ih =>
    intro ind r r' hlen h
    simp only [pop_loop] at h
    split at h
    · rcases hp : root_pop r with e | r1
      · rw [hp] at h
        exact Except.noConfusion h
      · rw [hp] at h
        have hl := root_pop_length r r1 hp
        exact ih ind r1 r' (by omega) h
    · simp only [Except.ok.injEq] at h
      subst h
      rename_i hnp
      exact Bool.not_eq_true _ ▸ (by simpa using hnp)

/-- `push_pop_loop` preserves adjacent monotonicity. -/
theorem push_pop_loop_adjMono :
    ∀ (f i : Nat) (r r' : Root), push_pop_loop f i r = .ok r' →
      adjMono (stack_indents r) = true → adjMono (stack_indents r') = true := by
  intro f
  induction f with
  | zero =>
    intro i r r' h hM
    simp only [push_pop_loop, Except.ok.injEq] at h
    subst h
    exact hM
  | succ f ih =>
    intro i r r' h hM
    simp only [push_pop_loop] at h
    split at h
    · exact Except.noConfusion h
    · split at h
      · exact Except.noConfusion h
      · split at h
        · rcases hp : root_pop r with e | r1
          · rw [hp] at h
            exact Except.noConfusion h
          · rw [hp] at h
            exact ih i r1 r' h (root_pop_adjMono r r1 hp hM)
        · simp only [Except.ok.injEq] at h
          subst h
          exact hM

/-- After a successful `push_pop_loop`, the top of the stack carries an
indent that the new node's indent dominates. -/
theorem push_pop_loop_post :
    ∀ (f i : Nat) (r r' : Root), r.stack.length < f →
      push_pop_loop f i r = .ok r' →
      ∃ hi rest, stack_indents r' = some hi :: rest ∧ hi ≤ i := by
  intro f
  induction f with
  | zero =>
    intro i r r' hlen h
    exact absurd hlen (Nat.not_lt_zero _)
  | succ f ih =>
    intro i r r' hlen h
    simp only [push_pop_loop] at h
    split at h
    · exact Except.noConfusion h
    · split at h
      · exact Except.noConfusion h
      · split at h
        · rcases hp : root_pop r with e | r1
          · rw [hp] at h
            exact Except.noConfusion h
          · rw [hp] at h
            have hl := root_pop_length r r1 hp
            exact ih i r1 r' (by omega) h
        · simp only [Except.ok.injEq] at h
          subst h
          rename_i n rest hstack sind hi hindent hnlt
          refine ⟨hi, rest.map (fun nn => nn.indent), ?_, Nat.le_of_not_lt hnlt⟩
          simp only [stack_indents, hstack, List.map_cons, hindent]

/-- A one-element stack is trivially monotone. -/
theorem adjMono_singleton (x : Option Nat) : adjMono [x] = true := by
  rcases x with _ | b <;> rfl

/-- Pushing onto a stack whose top has no indent keeps monotonicity. -/
theorem adjMono_cons_none_snd (x : Option Nat) (rest : List (Option Nat))
    (h : adjMono (Option.none :: rest) = true) :
    adjMono (x :: Option.none :: rest) = true := by
  rcases x with _ | b
  · exact h
  · exact h

/-- Pushing an indent-less node keeps monotonicity. -/
theorem adjMono_cons_none_fst (l : List (Option Nat)) (h : adjMono l = true) :
    adjMono (Option.none :: l) = true := h

/-- `ParseNode.__init__` does not touch the stack of the root. -/
theorem new_node_stack (r : Root) (k : NKind) (ind : Option Nat) :
    (new_node r k ind).2.stack = r.stack := by
  unfold new_node
  split <;> rfl

/-- `RootNode.auto_apply` preserves the stack indents. -/
theorem root_auto_apply_indents (r : Root) :
    stack_indents (root_auto_apply r) = stack_indents r := by
  unfold root_auto_apply
  rcases hs : r.stack with _ | ⟨n, rest⟩
  · rfl
  · rcases hauto : node_auto_apply r n with ⟨r2, n2⟩
    simp only [hauto]
    have hi : n2.indent = n.indent := by
      have hx := node_auto_apply_indent r n
      rw [hauto] at hx
      exact hx
    simp only [stack_indents, hs, List.map_cons, hi]

/-- `RootNode.push` preserves adjacent monotonicity of the stack indents. -/
theorem root_push_adjMono (r : Root) (node : PNode) (r' : Root)
    (hp : root_push r node = .ok r')
    (hM : adjMono (stack_indents r) = true) : adjMono (stack_indents r') = true := by
  unfold root_push at hp
  rcases hs : r.stack with _ | ⟨hd, tl⟩
  · rw [hs] at hp
    simp only [Except.ok.injEq] at hp
    subst hp
    exact adjMono_singleton node.indent
  · rw [hs] at hp
    rcases hhd : hd.indent with _ | hi
    · simp only [hhd, Except.ok.injEq] at hp
      subst hp
      have hx : stack_indents
          { r with stack := { node with is_temp := node.indent ≠ Option.none } :: hd :: tl } =
          node.indent :: hd.indent :: tl.map (fun n => n.indent) := rfl
      rw [hx, hhd]
      have hMr : adjMono (Option.none :: tl.map (fun n => n.indent)) = true := by
        have he : stack_indents r = Option.none :: tl.map (fun n => n.indent) := by
          simp only [stack_indents, hs, List.map_cons, hhd]
        rw [he] at hM
        exact hM
      exact adjMono_cons_none_snd node.indent _ hMr
    · simp only [hhd] at hp
      rcases hni : node.indent with _ | i
      · simp only [hni, Except.ok.injEq] at hp
        subst hp
        have hx : stack_indents { r with stack := node :: hd :: tl } =
            node.indent :: stack_indents r := by
          simp only [stack_indents, hs, List.map_cons]
        rw [hx, hni]
        exact adjMono_cons_none_fst _ hM
      · simp only [hni] at hp
        rcases hloop : push_pop_loop ((hd :: tl).length + 1) i r with e | r2
        · rw [hloop] at hp
          exact Except.noConfusion hp
        · rw [hloop] at hp
          simp only [Except.ok.injEq] at hp
          subst hp
          have hM2 := push_pop_loop_adjMono ((hd :: tl).length + 1) i r r2 hloop hM
          have hpost := push_pop_loop_post ((hd :: tl).length + 1) i r r2
            (by rw [hs]; exact Nat.lt_succ_self _) hloop
          obtain ⟨hi2, rest2, hst2, hle⟩ := hpost
          have hx : stack_indents { r2 with stack := node :: r2.stack } =
              node.indent :: stack_indents r2 := rfl
          rw [hx, hni, hst2]
          rw [hst2] at hM2
          exact adjMono_cons_some i hi2 rest2 hle hM2

/-- `needs_pop` depends only on the stack indents. -/
theorem needs_pop_congr (r1 r2 : Root) (ind : Option Nat)
    (h : stack_indents r1 = stack_indents r2) : needs_pop r1 ind = needs_pop r2 ind := by
  unfold needs_pop
  rcases hind : ind with _ | i
  · rcases r1.stack with _ | h1 <;> rcases r2.stack with _ | h2 <;> rfl
  · rcases hs1 : r1.stack with _ | ⟨h1, t1⟩ <;> rcases hs2 : r2.stack with _ | ⟨h2, t2⟩
    · rfl
    · simp only [stack_indents, hs1, hs2, List.map_nil, List.map_cons] at h
      exact absurd h (by simp)
    · simp only [stack_indents, hs1, hs2, List.map_nil, List.map_cons] at h
      exact absurd h (by simp)
    · simp only [stack_indents, hs1, hs2, List.map_cons, List.cons.injEq] at h
      show (match h1.indent with | some hi => decide (i < hi) | Option.none => false) =
          (match h2.indent with | some hi => decide (i < hi) | Option.none => false)
      rw [h.1]

/-- `RootNode.ensure_node` preserves adjacent monotonicity. -/
theorem ensure_node_adjMono (r : Root) (ind : Option Nat) (k : NKind) (r' : Root)
    (hp : ensure_node r ind k = .ok r')
    (hM : adjMono (stack_indents r) = true) : adjMono (stack_indents r') = true := by
  simp only [ensure_node] at hp
  rcases hpl : pop_loop (r.stack.length + 1) ind r with e | r1
  · rw [hpl] at hp
    exact Except.noConfusion hp
  · simp only [hpl] at hp
    have hM1 := pop_loop_adjMono _ ind r r1 hpl hM
    split at hp
    · exact Except.noConfusion hp
    · rename_i r2 heq
      simp only [Except.ok.injEq] at hp
      subst hp
      rw [root_auto_apply_indents]
      split at heq
      · split at heq
        · exact Except.noConfusion heq
        · rcases hnn : new_node r1 k ind with ⟨node, rr⟩
          simp only [hnn] at heq
          have hst : rr.stack = r1.stack := by
            have hq := new_node_stack r1 k ind
            rw [hnn] at hq
            exact hq
          have hMrr : adjMono (stack_indents rr) = true := by
            have hq : stack_indents rr = stack_indents r1 := by
              simp only [stack_indents, hst]
            rw [hq]
            exact hM1
          exact root_push_adjMono rr node r2 heq hMrr
      · simp only [Except.ok.injEq] at heq
        subst heq
        exact hM1

/-- `set_key` never changes the node's indent. -/
theorem node_set_key_indent (n : PNode) (k : Value) (n' : PNode)
    (h : node_set_key n k = .ok n') : n'.indent = n.indent := by
  unfold node_set_key at h
  split at h
  · split at h
    · simp only [Except.ok.injEq] at h
      subst h
      rfl
    · exact Except.noConfusion h
  · exact Except.noConfusion h

/-- `RootNode.push_key` preserves adjacent monotonicity. -/
theorem root_push_key_adjMono (r : Root) (ind : Option Nat) (k : Value) (r' : Root)
    (hp : root_push_key r ind k = .ok r')
    (hM : adjMono (stack_indents r) = true) : adjMono (stack_indents r') = true := by
  unfold root_push_key at hp
  rcases he : ensure_node r ind .map with e | r1
  · rw [he] at hp
    exact Except.noConfusion hp
  · simp only [he] at hp
    have hM1 := ensure_node_adjMono r ind .map r1 he hM
    rcases hs : r1.stack with _ | ⟨hd, tl⟩
    · rw [hs] at hp
      exact Except.noConfusion hp
    · simp only [hs] at hp
      rcases hk : node_set_key hd k with e | h2
      · rw [hk] at hp
        exact Except.noConfusion hp
      · simp only [hk] at hp
        simp only [Except.ok.injEq] at hp
        subst hp
        have hx : stack_indents { r1 with stack := h2 :: tl } =
            h2.indent :: tl.map (fun n => n.indent) := rfl
        rw [hx, node_set_key_indent hd k h2 hk]
        have hq : stack_indents r1 = hd.indent :: tl.map (fun n => n.indent) := by
          simp only [stack_indents, hs, List.map_cons]
        rw [hq] at hM1
        exact hM1

/-- `RootNode.push_value` preserves adjacent monotonicity. -/
theorem root_push_value_adjMono (r : Root) (ind : Option Nat) (v : Value) (r' : Root)
    (hp : root_push_value r ind v = .ok r')
    (hM : adjMono (stack_indents r) = true) : adjMono (stack_indents r') = true := by
  simp only [root_push_value] at hp
  rcases hm : root_marshalled r v with e | ⟨r1, v1⟩
  · rw [hm] at hp
    exact Except.noConfusion hp
  · simp only [hm] at hp
    have hM1 : adjMono (stack_indents r1) = true := by
      have hq : stack_indents r1 = stack_indents r := by
        simp only [stack_indents, root_marshalled_stack r v r1 v1 hm]
      rw [hq]
      exact hM
    rcases hs : r1.stack with _ | ⟨hd0, tl0⟩
    · simp only [hs] at hp
      rcases hnn : new_node r1 .scalar ind with ⟨node, r2⟩
      simp only [hnn] at hp
      rcases hpush : root_push r2 node with e | r3
      · rw [hpush] at hp
        exact Except.noConfusion hp
      · simp only [hpush] at hp
        have hM3 : adjMono (stack_indents r3) = true := by
          apply root_push_adjMono r2 node r3 hpush
          have hw := new_node_stack r1 .scalar ind
          rw [hnn] at hw
          have hw2 : r2.stack = r1.stack := hw
          have hq : stack_indents r2 = stack_indents r1 := by
            simp only [stack_indents, hw2]
          rw [hq]
          exact hM1
        rcases hs3 : r3.stack with _ | ⟨hd, tl⟩
        · simp only [hs3] at hp
          exact Except.noConfusion hp
        · simp only [hs3] at hp
          have hMc : adjMono
              (stack_indents { r3 with stack := node_set_value hd v1 :: tl }) = true := by
            have hx : stack_indents { r3 with stack := node_set_value hd v1 :: tl } =
                (node_set_value hd v1).indent :: tl.map (fun n => n.indent) := rfl
            rw [hx, node_set_value_indent]
            have hq : stack_indents r3 = hd.indent :: tl.map (fun n => n.indent) := by
              simp only [stack_indents, hs3, List.map_cons]
            rw [hq] at hM3
            exact hM3
          split at hp
          · exact root_pop_adjMono _ _ hp hMc
          · simp only [Except.ok.injEq] at hp
            subst hp
            exact hMc
    · simp only [hs] at hp
      have hMc : adjMono
          (stack_indents { r1 with stack := node_set_value hd0 v1 :: tl0 }) = true := by
        have hx : stack_indents { r1 with stack := node_set_value hd0 v1 :: tl0 } =
            (node_set_value hd0 v1).indent :: tl0.map (fun n => n.indent) := rfl
        rw [hx, node_set_value_indent]
        have hq : stack_indents r1 = hd0.indent :: tl0.map (fun n => n.indent) := by
          simp only [stack_indents, hs, List.map_cons]
        rw [hq] at hM1
        exact hM1
      split at hp
      · exact root_pop_adjMono _ _ hp hMc
      · simp only [Except.ok.injEq] at hp
        subst hp
        exact hMc

/-- The document-flushing loop preserves adjacent monotonicity. -/
theorem pop_doc_loop_adjMono :
    ∀ (f : Nat) (r r' : Root), pop_doc_loop f r = .ok r' →
      adjMono (stack_indents r) = true → adjMono (stack_indents r') = true := by
  intro f
  induction f with
  | zero =>
    intro r r' h hM
    simp only [pop_doc_loop, Except.ok.injEq] at h
    subst h
    exact hM
  | succ f ih =>
    intro r r' h hM
    simp only [pop_doc_loop] at h
    split at h
    · simp only [Except.ok.injEq] at h
      subst h
      exact hM
    · rcases hp : root_pop r with e | r1
      · rw [hp] at h
        exact Except.noConfusion h
      · rw [hp] at h
        exact ih r1 r' h (root_pop_adjMono r r1 hp hM)

/-- `RootNode.pop_doc` preserves adjacent monotonicity. -/
theorem root_pop_doc_adjMono (r r' : Root) (h : root_pop_doc r = .ok r')
    (hM : adjMono (stack_indents r) = true) : adjMono (stack_indents r') = true := by
  unfold root_pop_doc at h
  split at h
  · split at h
    · have hst := root_set_value_stack r _ r' h
      have hq : stack_indents r' = stack_indents r := by
        simp only [stack_indents, hst]
      rw [hq]
      exact hM
    · simp only [Except.ok.injEq] at h
      subst h
      exact hM
  · exact pop_doc_loop_adjMono _ r r' h hM

/-- Consuming any single token preserves adjacent monotonicity. -/
theorem consume_token_adjMono (t : Token) (r r' : Root)
    (h : consume_token t r = .ok r')
    (hM : adjMono (stack_indents r) = true) : adjMono (stack_indents r') = true := by
  unfold consume_token at h
  split at h
  · simp only [Except.ok.injEq] at h
    subst h
    exact hM
  · exact root_pop_doc_adjMono r r' h hM
  · exact root_pop_doc_adjMono r r' h hM
  · exact root_pop_doc_adjMono r r' h hM
  · rcases hnn : new_node r .map Option.none with ⟨node, r2⟩
    simp only [hnn] at h
    apply root_push_adjMono r2 node r' h
    have hw := new_node_stack r .map Option.none
    rw [hnn] at hw
    have hw2 : r2.stack = r.stack := hw
    have hq : stack_indents r2 = stack_indents r := by
      simp only [stack_indents, hw2]
    rw [hq]
    exact hM
  · rcases hnn : new_node r .list Option.none with ⟨node, r2⟩
    simp only [hnn] at h
    apply root_push_adjMono r2 node r' h
    have hw := new_node_stack r .list Option.none
    rw [hnn] at hw
    have hw2 : r2.stack = r.stack := hw
    have hq : stack_indents r2 = stack_indents r := by
      simp only [stack_indents, hw2]
    rw [hq]
    exact hM
  · exact root_pop_adjMono r r' h hM
  · simp only [Except.ok.injEq] at h
    subst h
    rw [root_auto_apply_indents]
    exact hM
  · exact ensure_node_adjMono r t.indent .list r' h hM
  · simp only [Except.ok.injEq] at h
    subst h
    exact hM
  · simp only [Except.ok.injEq] at h
    subst h
    exact hM
  · rcases hs : r.stack with _ | ⟨hd, tl⟩
    · rw [hs] at h
      exact Except.noConfusion h
    · rw [hs] at h
      simp only [Except.ok.injEq] at h
      subst h
      rename_i v _heq
      have hx : stack_indents { r with stack := { hd with anchor := some v } :: tl } =
          hd.indent :: tl.map (fun n => n.indent) := rfl
      rw [hx]
      have hq : stack_indents r = hd.indent :: tl.map (fun n => n.indent) := by
        simp only [stack_indents, hs, List.map_cons]
      rw [hq] at hM
      exact hM
  · exact root_push_value_adjMono r t.indent _ r' h hM
  · split at h
    · exact Except.noConfusion h
    · simp only [Except.ok.injEq] at h
      subst h
      exact hM
  · exact root_push_key_adjMono r t.indent .none r' h hM
  · exact root_push_value_adjMono r t.indent _ r' h hM

/-- The token loop of `deserialized` preserves adjacent monotonicity. -/
theorem deserialized_tokens_adjMono :
    ∀ (ts : List Token) (r r' : Root), deserialized_tokens ts r = .ok r' →
      adjMono (stack_indents r) = true → adjMono (stack_indents r') = true := by
  intro ts
  induction ts with
  | nil =>
    intro r r' h hM
    simp only [deserialized_tokens, Except.ok.injEq] at h
    subst h
    exact hM
  | cons t ts ih =>
    intro r r' h hM
    simp only [deserialized_tokens] at h
    rcases hc : consume_token t r with e | r1
    · rw [hc] at h
      exact Except.noConfusion h
    · rw [hc] at h
      exact ih r1 r' h (consume_token_adjMono t r r1 hc hM)

/-- `int()` failures are ordinary Python/parse errors. -/
theorem pyIntOf_err (v : Value) (e : Exc) (h : pyIntOf v = .error e) :
    notIndent e = true := by
  unfold pyIntOf at h
  split at h
  · split at h
    · exact Except.noConfusion h
    · simp only [Except.error.injEq] at h
      subst h
      rfl
  · exact Except.noConfusion h
  · exact Except.noConfusion h
  · simp only [Except.error.injEq] at h
    subst h
    rfl
  · simp only [Except.error.injEq] at h
    subst h
    rfl

/-- Scalar-marshaller failures are ordinary parse errors. -/
theorem scalar_marshalled_err (m : Marshaller) (v : Value) (e : Exc)
    (h : scalar_marshalled m v = .error e) : notIndent e = true := by
  simp only [scalar_marshalled] at h
  split at h <;>
    first
      | exact Except.noConfusion h
      | exact pyIntOf_err v e h
      | (split at h <;>
          first
            | exact Except.noConfusion h
            | (simp only [Except.error.injEq] at h
               subst h
               rfl)
            | (split at h <;>
                first
                  | exact Except.noConfusion h
                  | (simp only [Except.error.injEq] at h
                     subst h
                     rfl)))

/-- Marshaller failures are ordinary parse errors, never the indent
guard error. -/
theorem marshaller_marshalled_err (m : Marshaller) (v : Value) (e : Exc)
    (h : marshaller_marshalled m v = .error e) : notIndent e = true := by
  unfold marshaller_marshalled at h
  split at h <;>
    first
      | exact scalar_marshalled_err _ v e h
      | (split at h <;>
          first
            | exact Except.noConfusion h
            | exact scalar_marshalled_err _ v e h
            | (simp only [Except.error.injEq] at h
               subst h
               rfl)
            | (split at h <;>
                first
                  | exact Except.noConfusion h
                  | (simp only [Except.error.injEq] at h
                     subst h
                     rfl)))

/-- `ParseNode.marshalled` failures are ordinary parse errors. -/
theorem node_marshalled_err (n : PNode) (v : Value) (e : Exc)
    (h : node_marshalled n v = .error e) : notIndent e = true := by
  unfold node_marshalled at h
  split at h
  · rename_i m hm
    split at h
    · rename_i e1 he1
      simp only [Except.error.injEq] at h
      subst h
      exact marshaller_marshalled_err m v e1 he1
    · exact Except.noConfusion h
  · exact Except.noConfusion h

/-- `RootNode.marshalled` failures are ordinary parse errors. -/
theorem root_marshalled_err (r : Root) (v : Value) (e : Exc)
    (h : root_marshalled r v = .error e) : notIndent e = true := by
  unfold root_marshalled at h
  split at h
  · rename_i m hm
    split at h
    · rename_i e1 he1
      simp only [Except.error.injEq] at h
      subst h
      exact marshaller_marshalled_err m v e1 he1
    · exact Except.noConfusion h
  · exact Except.noConfusion h

/-- `RootNode.set_value` failures are ordinary parse errors. -/
theorem root_set_value_err (r : Root) (v : Value) (e : Exc)
    (h : root_set_value r v = .error e) : notIndent e = true := by
  simp only [root_set_value] at h
  rcases hm : root_marshalled { r with doc_consumed := true } v with e1 | ⟨r1, v1⟩
  · simp only [hm, Except.error.injEq] at h
    subst h
    exact root_marshalled_err _ v e1 hm
  · simp only [hm] at h
    exact Except.noConfusion h

/-- `RootNode.pop` failures are ordinary parse errors. -/
theorem root_pop_err (r : Root) (e : Exc) (h : root_pop r = .error e) :
    notIndent e = true := by
  simp only [root_pop] at h
  rcases hs : r.stack with _ | ⟨p, rest⟩
  · simp only [hs] at h
    simp only [Except.error.injEq] at h
    subst h
    rfl
  · simp only [hs] at h
    rcases hauto : node_auto_apply { r with stack := rest } p with ⟨r1, p1⟩
    simp only [hauto] at h
    rcases hm : node_marshalled p1 p1.target with e1 | ⟨p2, value⟩
    · simp only [hm, Except.error.injEq] at h
      subst h
      exact node_marshalled_err p1 p1.target e1 hm
    · simp only [hm] at h
      rcases hs1 : r1.stack with _ | ⟨head, rest2⟩
      · simp only [hs1] at h
        exact root_set_value_err r1 value e h
      · simp only [hs1] at h
        rcases hauto2 : node_auto_apply r1 (node_set_value head value) with ⟨r2, h2⟩
        simp only [hauto2] at h
        exact Except.noConfusion h

/-- `pop_loop` failures are ordinary parse errors. -/
theorem pop_loop_err :
    ∀ (f : Nat) (ind : Option Nat) (r : Root) (e : Exc),
      pop_loop f ind r = .error e → notIndent e = true := by
  intro f
  induction f with
  | zero =>
    intro ind r e h
    exact Except.noConfusion h
  | succ f ih =>
    intro ind r e h
    simp only [pop_loop] at h
    split at h
    · rcases hp : root_pop r with e1 | r1
      · rw [hp] at h
        have h2 : e1 = e := by
          simpa using h
        subst h2
        exact root_pop_err r e1 hp
      · rw [hp] at h
        exact ih ind r1 e h
    · exact Except.noConfusion h

/-- `push_pop_loop` failures are ordinary errors. -/
theorem push_pop_loop_err :
    ∀ (f i : Nat) (r : Root) (e : Exc),
      push_pop_loop f i r = .error e → notIndent e = true := by
  intro f
  induction f with
  | zero =>
    intro i r e h
    exact Except.noConfusion h
  | succ f ih =>
    intro i r e h
    simp only [push_pop_loop] at h
    split at h
    · simp only [Except.error.injEq] at h
      subst h
      rfl
    · split at h
      · simp only [Except.error.injEq] at h
        subst h
        rfl
      · split at h
        · rcases hp : root_pop r with e1 | r1
          · rw [hp] at h
            have h2 : e1 = e := by
              simpa using h
            subst h2
            exact root_pop_err r e1 hp
          · rw [hp] at h
            exact ih i r1 e h
        · exact Except.noConfusion h

/-- `RootNode.push` failures are ordinary errors. -/
theorem root_push_err (r : Root) (node : PNode) (e : Exc)
    (h : root_push r node = .error e) : notIndent e = true := by
  unfold root_push at h
  rcases hs : r.stack with _ | ⟨hd, tl⟩
  · rw [hs] at h
    exact Except.noConfusion h
  · rw [hs] at h
    rcases hhd : hd.indent with _ | hi
    · simp only [hhd] at h
      exact Except.noConfusion h
    · simp only [hhd] at h
      rcases hni : node.indent with _ | i
      · simp only [hni] at h
        exact Except.noConfusion h
      · simp only [hni] at h
        rcases hloop : push_pop_loop ((hd :: tl).length + 1) i r with e1 | r2
        · rw [hloop] at h
          have h2 : e1 = e := by
            simpa using h
          subst h2
          exact push_pop_loop_err _ i r e1 hloop
        · rw [hloop] at h
          exact Except.noConfusion h

/-- `get_min` starting from `some i` never exceeds `i`. -/
theorem get_min_some_le (i : Nat) (tg : Option Nat) (j : Nat)
    (h : get_min (some i) tg = some j) : j ≤ i := by
  rcases tg with _ | b
  · simp only [get_min, Option.some.injEq] at h
    omega
  · simp only [get_min] at h
    split at h
    · simp only [Option.some.injEq] at h
      omega
    · simp only [Option.some.injEq] at h
      omega

/-- The indent of a fresh node is the requested indent or its `get_min`
with the pending tag indent. -/
theorem new_node_indent (r : Root) (k : NKind) (ind : Option Nat) :
    (new_node r k ind).1.indent = ind ∨
    ∃ tg, (new_node r k ind).1.indent = get_min ind tg := by
  unfold new_node
  rcases hm : r.marshaller with _ | m
  · simp only [hm]
    left
    trivial
  · simp only [hm]
    right
    exact ⟨r.tag_indent, rfl⟩

/-- A successful `push` leaves the pushed node's indent on top. -/
theorem root_push_top (r : Root) (node : PNode) (r' : Root)
    (hp : root_push r node = .ok r') :
    ∃ n' rest, r'.stack = n' :: rest ∧ n'.indent = node.indent := by
  unfold root_push at hp
  rcases hs : r.stack with _ | ⟨hd, tl⟩
  · rw [hs] at hp
    simp only [Except.ok.injEq] at hp
    subst hp
    exact ⟨node, [], rfl, rfl⟩
  · rw [hs] at hp
    rcases hhd : hd.indent with _ | hi
    · simp only [hhd, Except.ok.injEq] at hp
      subst hp
      exact ⟨_, _, rfl, rfl⟩
    · simp only [hhd] at hp
      rcases hni : node.indent with _ | i
      · simp only [hni, Except.ok.injEq] at hp
        subst hp
        exact ⟨node, _, rfl, hni⟩
      · simp only [hni] at hp
        rcases hloop : push_pop_loop ((hd :: tl).length + 1) i r with e | r2
        · rw [hloop] at hp
          exact Except.noConfusion hp
        · rw [hloop] at hp
          simp only [Except.ok.injEq] at hp
          subst hp
          exact ⟨node, r2.stack, rfl, hni⟩

/-- If the top of the stack carries an indent no deeper than the entry,
no pop is needed. -/
theorem needs_pop_after_push (r2 : Root) (ind : Option Nat) (n' : PNode)
    (rest : List PNode) (hs : r2.stack = n' :: rest)
    (hind : ∀ i, ind = some i → ∀ j, n'.indent = some j → j ≤ i) :
    needs_pop r2 ind = false := by
  rcases hi : ind with _ | i
  · unfold needs_pop
    rw [hs]
  · unfold needs_pop
    rw [hs]
    show (match n'.indent with | some hi2 => decide (i < hi2) | Option.none => false) = false
    rcases hj : n'.indent with _ | j
    · rfl
    · have hle := hind i hi j hj
      show decide (i < j) = false
      simp only [decide_eq_false_iff_not]
      omega

/-- After a successful `ensure_node` no further pop is needed: the new
top fits the entry's indent. -/
theorem ensure_node_post (r : Root) (ind : Option Nat) (k : NKind) (r' : Root)
    (hp : ensure_node r ind k = .ok r') : needs_pop r' ind = false := by
  simp only [ensure_node] at hp
  rcases hpl : pop_loop (r.stack.length + 1) ind r with e | r1
  · rw [hpl] at hp
    exact Except.noConfusion hp
  · simp only [hpl] at hp
    have hnp1 := pop_loop_post (r.stack.length + 1) ind r r1 (Nat.lt_succ_self _) hpl
    split at hp
    · exact Except.noConfusion hp
    · rename_i r2 heq
      simp only [Except.ok.injEq] at hp
      subst hp
      rw [needs_pop_congr (root_auto_apply r2) r2 ind (root_auto_apply_indents r2)]
      split at heq
      · split at heq
        · exact Except.noConfusion heq
        · obtain ⟨n2, rest, hst, hin⟩ := root_push_top _ _ r2 heq
          apply needs_pop_after_push r2 ind n2 rest hst
          intro i hii j hjj
          rw [hin] at hjj
          subst hii
          rcases new_node_indent r1 k (some i) with hcase | ⟨tg, hcase⟩
          · rw [hcase] at hjj
            simp only [Option.some.injEq] at hjj
            omega
          · rw [hcase] at hjj
            exact get_min_some_le i tg j hjj
      · simp only [Except.ok.injEq] at heq
        subst heq
        exact hnp1

/-- `ensure_node` never raises the indent guard error: by the time the
guard of the source (`Line should be indented at least ...`) is tested,
the pop loop has already ensured the top indent is no deeper than the
entry, so the guard condition is false.  All other failure paths carry
ordinary errors. -/
theorem ensure_node_err (r : Root) (ind : Option Nat) (k : NKind) (e : Exc)
    (h : ensure_node r ind k = .error e) : notIndent e = true := by
  simp only [ensure_node] at h
  rcases hpl : pop_loop (r.stack.length + 1) ind r with e0 | r1
  · simp only [hpl, Except.error.injEq] at h
    subst h
    exact pop_loop_err _ ind r e0 hpl
  · simp only [hpl] at h
    have hnp1 := pop_loop_post (r.stack.length + 1) ind r r1 (Nat.lt_succ_self _) hpl
    split at h
    · rename_i e1 heq
      simp only [Except.error.injEq] at h
      subst h
      split at heq
      · split at heq
        · rename_i hg hguard
          exfalso
          split at hguard
          · rcases hind : ind with _ | i
            · rcases hstk : r1.stack with _ | ⟨hd2, tl2⟩
              · simp only [hind, hstk] at hguard
                exact Option.noConfusion hguard
              · simp only [hind, hstk] at hguard
                exact Option.noConfusion hguard
            · rcases hstk : r1.stack with _ | ⟨hd2, tl2⟩
              · simp only [hind, hstk] at hguard
                exact Option.noConfusion hguard
              · simp only [hind, hstk] at hguard
                rcases hind2 : hd2.indent with _ | hig
                · simp only [hind2] at hguard
                  exact Option.noConfusion hguard
                · simp only [hind2] at hguard
                  split at hguard
                  · rename_i hlt
                    rw [hind] at hnp1
                    have hred : needs_pop r1 (some i) = decide (i < hig) := by
                      unfold needs_pop
                      rw [hstk]
                      show (match hd2.indent with
                            | some hi2 => decide (i < hi2)
                            | Option.none => false) = decide (i < hig)
                      rw [hind2]
                    rw [hred] at hnp1
                    simp only [decide_eq_false_iff_not] at hnp1
                    exact hnp1 hlt
                  · exact Option.noConfusion hguard
          · exact Option.noConfusion hguard
        · exact root_push_err _ _ e1 heq
      · exact Except.noConfusion heq
    · exact Except.noConfusion h

/-! ## The claims -/

/-- Claim C1 (code bug).  The spec says untagged plain scalars are
coerced (true/false to booleans, null and tilde to null, numbers to
int/float) and that `load ("a: 1\nb: true\nc: ~")` gives the mapping
with a = 1, b = true, c = null.  The coercion helper `default_marshal`
exists and behaves as described on numbers, booleans and `null`, but its
regex misses a bare tilde, and nothing in the load pipeline ever calls
it: the example input loads to one joined string (key tokens carry no
text and scalar values stay unmarshalled), not to the claimed mapping. -/
theorem c1_plain_scalar_coercion_unused :
    default_marshal (Value.str "1".toList) = Value.int 1 ∧
    default_marshal (Value.str "true".toList) = Value.bool true ∧
    default_marshal (Value.str "null".toList) = Value.none ∧
    default_marshal (Value.str "~".toList) = Value.str "~".toList ∧
    load "a: 1\nb: true\nc: ~" = .ok (Value.str "a \x7bNone: \x27~\x27\x7d".toList) := by
  refine ⟨rfl, rfl, rfl, rfl, ?_⟩
  have hscan : scan_tokens "a: 1\nb: true\nc: ~" =
      ([⟨TokKind.streamStart, some 1, some 0⟩,
        ⟨TokKind.scalar (some "a".toList) Option.none, some 1, some 0⟩,
        ⟨TokKind.key, some 1, some 1⟩,
        ⟨TokKind.scalar (some "1".toList) Option.none, some 1, some 3⟩,
        ⟨TokKind.scalar (some "b".toList) Option.none, some 2, some 0⟩,
        ⟨TokKind.key, some 2, some 1⟩,
        ⟨TokKind.scalar (some "true".toList) Option.none, some 2, some 3⟩,
        ⟨TokKind.scalar (some "c".toList) Option.none, some 3, some 0⟩,
        ⟨TokKind.key, some 3, some 1⟩,
        ⟨TokKind.scalar (some "~".toList) Option.none, some 3, some 3⟩,
        ⟨TokKind.streamEnd, some 3, some 0⟩], ScanOut.done) := rfl
  simp only [load, hscan]
  rfl

/-- Claim C2 (confirmed).  `load` returns the single document directly
when the parse produced exactly one document and the list of documents
otherwise. -/
theorem c2_load_simplified (s : String) (docs : List Value)
    (h : load_docs s = .ok docs) :
    (docs.length = 1 → load s = .ok (docs.headD Value.none)) ∧
    (¬ docs.length = 1 → load s = .ok (Value.list docs)) := by
  have hls : load s = .ok (simplified docs) := by
    unfold load_docs at h
    rcases hscan : scan_tokens s with ⟨toks, out⟩
    simp only [hscan] at h
    rcases hd : deserialized_tokens toks init_root with e | r
    · simp only [hd] at h
      exact Except.noConfusion h
    · simp only [hd] at h
      rcases out with _ | e
      · simp only [Except.ok.injEq] at h
        subst h
        simp only [load, hscan, hd]
      · exact Except.noConfusion h
  constructor
  · intro hlen
    have hs : simplified docs = docs.headD Value.none := by
      unfold simplified
      rw [if_pos hlen]
    rw [hls, hs]
  · intro hlen
    have hs : simplified docs = Value.list docs := by
      unfold simplified
      rw [if_neg hlen]
    rw [hls, hs]

/-- Witness for C2 at the empty input: zero documents come back as the
empty list. -/
theorem c2_load_simplified_witness :
    load_docs "" = .ok ([] : List Value) ∧ load "" = .ok (Value.list []) := by
  have h0 : load_docs "" = .ok ([] : List Value) := by
    have hscan : scan_tokens "" = ([⟨TokKind.streamStart, some 1, some 0⟩,
      ⟨TokKind.streamEnd, Option.none, some 0⟩], ScanOut.done) := rfl
    simp only [load_docs, hscan]
    rfl
  exact ⟨h0, (c2_load_simplified "" [] h0).2 (by decide)⟩

/-- Claim C3 (corrected).  For every input whose scan completes, the
token sequence starts with StreamStart, ends with StreamEnd, and
StreamEnd occurs exactly once.  (The original claim said "for every
input": when scanning raises, the yielded prefix has no StreamEnd, see
the counterexample.) -/
theorem c3_stream_sentinels (s : String) (ts : List Token)
    (h : scan_tokens s = (ts, ScanOut.done)) :
    (∃ t0, ts.head? = some t0 ∧ isStreamStart t0 = true) ∧
    (∃ tl, ts.getLast? = some tl ∧ isStreamEnd tl = true) ∧
    ts.countP (fun t => isStreamEnd t) = 1 := by
  obtain ⟨ts1, hts, hiter⟩ := scan_tokens_decomp s ts ScanOut.done h
  obtain ⟨⟨tl, hlast, hse⟩, hcount, hflow⟩ := scan_iter_ok _ _ _ _ hiter
  subst hts
  refine ⟨⟨⟨TokKind.streamStart, some 1, some 0⟩, rfl, rfl⟩, ⟨tl, ?_, hse⟩, ?_⟩
  · rcases ts1 with _ | ⟨b, l⟩
    · exact Option.noConfusion hlast
    · rw [List.getLast?_cons_cons]
      exact hlast
  · rw [List.countP_cons, hcount]
    decide

/-- Witness for C3 at the empty input. -/
theorem c3_stream_sentinels_witness :
    (∃ t0, ([⟨TokKind.streamStart, some 1, some 0⟩,
      ⟨TokKind.streamEnd, Option.none, some 0⟩] : List Token).head? = some t0 ∧
      isStreamStart t0 = true) ∧
    (∃ tl, ([⟨TokKind.streamStart, some 1, some 0⟩,
      ⟨TokKind.streamEnd, Option.none, some 0⟩] : List Token).getLast? = some tl ∧
      isStreamEnd tl = true) ∧
    ([⟨TokKind.streamStart, some 1, some 0⟩,
      ⟨TokKind.streamEnd, Option.none, some 0⟩] : List Token).countP
        (fun t => isStreamEnd t) = 1 :=
  c3_stream_sentinels "" _ rfl

/-- Counterexample for C3 as frozen: on the input of one lone closer the
scan raises and the yielded token sequence has no StreamEnd at all. -/
theorem c3_stream_sentinels_counterexample :
    scan_tokens "]" = ([⟨TokKind.streamStart, some 1, some 0⟩],
      ScanOut.err (Exc.perr "\x27]\x27 without corresponding opener" Option.none (some 0))) ∧
    ([⟨TokKind.streamStart, some 1, some 0⟩] : List Token).countP
      (fun t => isStreamEnd t) = 0 :=
  ⟨rfl, rfl⟩

/-- Claim C4 (code bug).  The spec describes literal/folded chomping and
predicts that the key `text` maps to the block content, but a literal
block at end of input loses its token entirely (the iterator stops while
the literal is being collected), so both example inputs scan to a token
list without any block scalar and load to a joined string instead of the
claimed mapping. -/
theorem c4_literal_block_chomping_lost :
    scan_tokens "text: |\n  line1\n  line2\n" =
      ([⟨TokKind.streamStart, some 1, some 0⟩,
        ⟨TokKind.scalar (some "text".toList) Option.none, some 1, some 0⟩,
        ⟨TokKind.key, some 1, some 4⟩,
        ⟨TokKind.streamEnd, some 1, some 0⟩], ScanOut.done) ∧
    load "text: |\n  line1\n  line2\n" = .ok (Value.str "text \x7bNone: None\x7d".toList) ∧
    load "text: >\n  line1\n  line2\n" = .ok (Value.str "text \x7bNone: None\x7d".toList) := by
  refine ⟨rfl, ?_, ?_⟩
  · have hscan : scan_tokens "text: |\n  line1\n  line2\n" =
        ([⟨TokKind.streamStart, some 1, some 0⟩,
          ⟨TokKind.scalar (some "text".toList) Option.none, some 1, some 0⟩,
          ⟨TokKind.key, some 1, some 4⟩,
          ⟨TokKind.streamEnd, some 1, some 0⟩], ScanOut.done) := rfl
    simp only [load, hscan]
    rfl
  · have hscan : scan_tokens "text: >\n  line1\n  line2\n" =
        ([⟨TokKind.streamStart, some 1, some 0⟩,
          ⟨TokKind.scalar (some "text".toList) Option.none, some 1, some 0⟩,
          ⟨TokKind.key, some 1, some 4⟩,
          ⟨TokKind.streamEnd, some 1, some 0⟩], ScanOut.done) := rfl
    simp only [load, hscan]
    rfl

/-- Claim C5 (corrected).  A tag whose name is not registered resolves
to a null marshaller at scan time (first half of the claim, true), but
applying a null marshaller is a silent no-op: no parse error is ever
raised for it (the claim said an error is raised; see the
counterexample). -/
theorem c5_unknown_tag_silent (text : Chars) (n : PNode) (v : Value)
    (hunk : marshallerByName
      (pyPartition (if pyStartswith text ['!'] then text.drop 1 else text) '!').2.2 =
      Option.none)
    (hm : n.marshaller = Option.none) :
    get_marshaller text = Option.none ∧ node_marshalled n v = .ok (n, v) := by
  constructor
  · simp only [get_marshaller]
    rcases hp : pyPartition (if pyStartswith text ['!'] then text.drop 1 else text) '!'
      with ⟨pre, fd, name⟩
    simp only [hp] at hunk
    simp only [hp]
    split
    · exact hunk
    · rfl
  · simp only [node_marshalled, hm]

/-- Witness for C5: the tag name `foo` is unknown and a marshaller-free
node marshals to its own value unchanged. -/
theorem c5_unknown_tag_silent_witness :
    get_marshaller "!!foo".toList = Option.none ∧
    node_marshalled
      ⟨NKind.scalar, Option.none, Option.none, false, false, Value.none, Value.none,
        Value.none, Option.none⟩ (Value.str " 1".toList) =
      .ok (⟨NKind.scalar, Option.none, Option.none, false, false, Value.none, Value.none,
        Value.none, Option.none⟩, Value.str " 1".toList) :=
  c5_unknown_tag_silent "!!foo".toList
    ⟨NKind.scalar, Option.none, Option.none, false, false, Value.none, Value.none,
      Value.none, Option.none⟩ (Value.str " 1".toList) rfl rfl

/-- Counterexample for C5 as frozen: an unknown tag applied to a scalar
raises nothing; the document loads as the raw scalar text. -/
theorem c5_unknown_tag_silent_counterexample :
    load "!!foo 1" = .ok (Value.str " 1".toList) := by
  have hscan : scan_tokens "!!foo 1" = ([⟨TokKind.streamStart, some 1, some 0⟩,
    ⟨TokKind.tag "!!foo".toList Option.none, some 1, some 0⟩,
    ⟨TokKind.scalar (some " 1".toList) Option.none, some 1, some 5⟩,
    ⟨TokKind.streamEnd, some 1, some 0⟩], ScanOut.done) := rfl
  simp only [load, hscan]
  rfl

/-- Claim C6 (corrected).  Scanning a flow closer pops the top of the
flow-ender stack and raises a parse error on mismatch or on an empty
stack, and in every completed scan each FlowEnd token finds a matching
opener in the flow simulation.  (The further consequence claimed — that
flow brackets are balanced in any successful parse — is false: an
unclosed opener scans to completion, see the counterexample.) -/
theorem c6_flow_enders (s : String) (ts : List Token)
    (h : scan_tokens s = (ts, ScanOut.done)) :
    (flowSimAll ts []).isSome = true ∧
    (∀ (c : Char) (sc : Scanner), sc.flow_ender = [] →
      pop_flow_ender c sc = .error (.perr ("\x27" ++ String.mk [c] ++
        "\x27 without corresponding opener") Option.none Option.none)) ∧
    (∀ (c p : Char) (rest : List Char) (sc : Scanner), sc.flow_ender = p :: rest →
      ¬ p = c →
      pop_flow_ender c sc = .error (.perr ("Expecting \x27" ++ String.mk [c] ++
        "\x27, but found \x27" ++ String.mk [p] ++ "\x27") Option.none Option.none)) ∧
    (∀ (c : Char) (sc sc2 : Scanner), pop_flow_ender c sc = .ok sc2 →
      sc.flow_ender = c :: sc2.flow_ender) := by
  refine ⟨?_, ?_, ?_, fun c sc sc2 hp => pop_flow_ender_ok c sc sc2 hp⟩
  · obtain ⟨ts1, hts, hiter⟩ := scan_tokens_decomp s ts ScanOut.done h
    obtain ⟨hl, hc, hflow⟩ := scan_iter_ok _ _ _ _ hiter
    subst hts
    exact hflow
  · intro c sc hfe
    simp only [pop_flow_ender, hfe]
  · intro c p rest sc hfe hne
    simp only [pop_flow_ender, hfe]
    rw [if_pos hne]

/-- Witness for C6 at the empty input. -/
theorem c6_flow_enders_witness :
    (flowSimAll [⟨TokKind.streamStart, some 1, some 0⟩,
      ⟨TokKind.streamEnd, Option.none, some 0⟩] []).isSome = true :=
  (c6_flow_enders "" _ rfl).1

/-- Counterexample to the balance consequence of C6 as frozen: an
unclosed `[` scans to completion, so a successful parse may leave flow
brackets unbalanced (one opener, no FlowEnd). -/
theorem c6_flow_enders_counterexample :
    scan_tokens "[1" = ([⟨TokKind.streamStart, some 1, some 0⟩,
      ⟨TokKind.flowSeqStart, some 1, some 0⟩,
      ⟨TokKind.scalar (some "1".toList) Option.none, some 1, some 1⟩,
      ⟨TokKind.streamEnd, some 1, some 0⟩], ScanOut.done) ∧
    ([⟨TokKind.streamStart, some 1, some 0⟩,
      ⟨TokKind.flowSeqStart, some 1, some 0⟩,
      ⟨TokKind.scalar (some "1".toList) Option.none, some 1, some 1⟩,
      ⟨TokKind.streamEnd, some 1, some 0⟩] : List Token).countP
        (fun t => match t.kind with | TokKind.flowEnd => true | _ => false) = 0 ∧
    ([⟨TokKind.streamStart, some 1, some 0⟩,
      ⟨TokKind.flowSeqStart, some 1, some 0⟩,
      ⟨TokKind.scalar (some "1".toList) Option.none, some 1, some 1⟩,
      ⟨TokKind.streamEnd, some 1, some 0⟩] : List Token).countP
        (fun t => match t.kind with
          | TokKind.flowSeqStart => true
          | TokKind.flowMapStart => true
          | _ => false) = 1 :=
  ⟨rfl, rfl, rfl⟩

/-- Claim C7 (corrected).  A BlockEntry token makes the builder pop
nodes until the entry fits (afterwards no further pop is needed), but
the claimed parse error for an entry shallower than an existing mapping
is dead code: by the time the guard runs, the pop loop has already
removed every deeper node, so consuming a BlockEntry never raises the
indent guard error (see the counterexample, which loads successfully). -/
theorem c7_block_entry_pops (t : Token) (r : Root)
    (hk : t.kind = TokKind.blockEntry) :
    (∀ r2, consume_token t r = .ok r2 → needs_pop r2 t.indent = false) ∧
    (∀ e, consume_token t r = .error e → notIndent e = true) := by
  have hct : consume_token t r = ensure_node r t.indent NKind.list := by
    simp only [consume_token, hk]
  constructor
  · intro r2 h
    rw [hct] at h
    exact ensure_node_post r t.indent NKind.list r2 h
  · intro e h
    rw [hct] at h
    exact ensure_node_err r t.indent NKind.list e h

/-- Witness for C7: a BlockEntry on a fresh root pushes one list node at
its own indent; nothing further needs popping. -/
theorem c7_block_entry_pops_witness :
    needs_pop ⟨[], [⟨NKind.list, some 0, Option.none, false, false, Value.none, Value.none,
      Value.none, Option.none⟩], Option.none, Option.none, false, []⟩ (some 0) = false :=
  (c7_block_entry_pops ⟨TokKind.blockEntry, some 2, some 0⟩ init_root rfl).1
    ⟨[], [⟨NKind.list, some 0, Option.none, false, false, Value.none, Value.none,
      Value.none, Option.none⟩], Option.none, Option.none, false, []⟩ rfl

/-- Counterexample to the error half of C7 as frozen: the block entry at
column 0 arrives below a mapping indented by one space, yet the document
loads without any parse error. -/
theorem c7_block_entry_pops_counterexample :
    load " a: 1\n- x" = .ok (Value.list [Value.str "x".toList]) := by
  have hscan : scan_tokens " a: 1\n- x" =
      ([⟨TokKind.streamStart, some 1, some 0⟩,
        ⟨TokKind.scalar (some " a".toList) Option.none, some 1, some 0⟩,
        ⟨TokKind.key, some 1, some 2⟩,
        ⟨TokKind.scalar (some "1".toList) Option.none, some 1, some 4⟩,
        ⟨TokKind.blockEntry, some 2, some 0⟩,
        ⟨TokKind.scalar (some "x".toList) Option.none, some 2, some 2⟩,
        ⟨TokKind.streamEnd, some 2, some 0⟩], ScanOut.done) := rfl
  simp only [load, hscan]
  rfl

/-- Claim C8 (corrected).  After consuming any token sequence from the
fresh root, neighbouring open block nodes on the stack are weakly
monotone: a node never sits above one with a strictly deeper indent.
(The frozen claim asserts strictly increasing indents; that is false —
two stacked nodes may share an indent, see the counterexample.) -/
theorem c8_stack_indents_monotone (ts : List Token) (r : Root)
    (h : deserialized_tokens ts init_root = .ok r) :
    adjMono (stack_indents r) = true :=
  deserialized_tokens_adjMono ts init_root r h rfl

/-- Witness for C8 at the empty token list. -/
theorem c8_stack_indents_monotone_witness :
    adjMono (stack_indents init_root) = true :=
  c8_stack_indents_monotone [] init_root rfl

/-- Counterexample to the strictness of C8 as frozen: after the
BlockEntry of `a:` newline `- 1` (the scan prefix shown), the stack
holds a list node and a scalar node both at indent 0 — weakly but not
strictly ordered. -/
theorem c8_stack_indents_monotone_counterexample :
    (scan_tokens "a:\n- 1").1.take 4 =
      [⟨TokKind.streamStart, some 1, some 0⟩,
       ⟨TokKind.scalar (some "a".toList) Option.none, some 1, some 0⟩,
       ⟨TokKind.key, some 1, some 1⟩,
       ⟨TokKind.blockEntry, some 2, some 0⟩] ∧
    deserialized_tokens
      [⟨TokKind.streamStart, some 1, some 0⟩,
       ⟨TokKind.scalar (some "a".toList) Option.none, some 1, some 0⟩,
       ⟨TokKind.key, some 1, some 1⟩,
       ⟨TokKind.blockEntry, some 2, some 0⟩] init_root =
      .ok ⟨[], [⟨NKind.list, some 0, Option.none, false, false, Value.none, Value.none,
          Value.none, Option.none⟩,
        ⟨NKind.scalar, some 0, Option.none, false, false, Value.none, Value.none,
          Value.str "a \x7bNone: None\x7d".toList, Option.none⟩],
        Option.none, Option.none, false, []⟩ ∧
    strictDesc (blockIndents ⟨[], [⟨NKind.list, some 0, Option.none, false, false,
        Value.none, Value.none, Value.none, Option.none⟩,
      ⟨NKind.scalar, some 0, Option.none, false, false, Value.none, Value.none,
        Value.str "a \x7bNone: None\x7d".toList, Option.none⟩],
      Option.none, Option.none, false, []⟩) = false ∧
    adjMono (stack_indents ⟨[], [⟨NKind.list, some 0, Option.none, false, false,
        Value.none, Value.none, Value.none, Option.none⟩,
      ⟨NKind.scalar, some 0, Option.none, false, false, Value.none, Value.none,
        Value.str "a \x7bNone: None\x7d".toList, Option.none⟩],
      Option.none, Option.none, false, []⟩) = true :=
  ⟨rfl, rfl, rfl, rfl⟩

set_option maxHeartbeats 1600000 in
/-- Claim C9 (code bug).  Anchors are recorded under their full token
text `&name` while aliases look up their full token text `*name`, so an
alias never finds its anchor and resolves to null; moreover the anchored
value recorded is the joined scalar text staged at pop time.  On the
claimed example the anchors table maps `&x` to the string ` 7 b`, the
alias lookup under `*x` is empty, and the document is a joined string,
not a mapping in which a and b share a value. -/
theorem c9_alias_resolution_broken :
    load_root "a: &x 7\nb: *x" =
      .ok ⟨[Value.str "a \x7bNone: None\x7d".toList], [], Option.none, Option.none, true,
        [("&x".toList, Value.str " 7 b".toList)]⟩ ∧
    strDictGet [("&x".toList, Value.str " 7 b".toList)] "*x".toList = Option.none ∧
    load "a: &x 7\nb: *x" = .ok (Value.str "a \x7bNone: None\x7d".toList) := by
  have hscan : scan_tokens "a: &x 7\nb: *x" =
      ([⟨TokKind.streamStart, some 1, some 0⟩,
        ⟨TokKind.scalar (some "a".toList) Option.none, some 1, some 0⟩,
        ⟨TokKind.key, some 1, some 1⟩,
        ⟨TokKind.anchor "&x".toList, some 1, some 3⟩,
        ⟨TokKind.scalar (some " 7".toList) Option.none, some 1, some 5⟩,
        ⟨TokKind.scalar (some "b".toList) Option.none, some 2, some 0⟩,
        ⟨TokKind.key, some 2, some 1⟩,
        ⟨TokKind.alias "*x".toList, some 2, some 3⟩,
        ⟨TokKind.streamEnd, some 2, some 0⟩], ScanOut.done) := rfl
  refine ⟨?_, rfl, ?_⟩
  · simp only [load_root, hscan]
    rfl
  · simp only [load, hscan]
    rfl

/-- Claim C10 (confirmed).  Loading the empty string records no document
and returns the empty list (not null and not a single value). -/
theorem c10_empty_doc_list :
    load "" = .ok (Value.list []) ∧ load_docs "" = .ok ([] : List Value) := by
  have hscan : scan_tokens "" = ([⟨TokKind.streamStart, some 1, some 0⟩,
    ⟨TokKind.streamEnd, Option.none, some 0⟩], ScanOut.done) := rfl
  constructor
  · simp only [load, hscan]
    rfl
  · simp only [load_docs, hscan]
    rfl
